import Mathlib

/-!
Verification of the anatomical nose-mesh deformation engine of the
rhinovate repository, as implemented in
`src/components/nose/AnatomicalMeshEditor.tsx`,
`src/components/nose/VertexInteraction.tsx` and
`src/components/nose/NoseAdjustments.tsx`.

The JavaScript code computes with IEEE floating point; the shallow
embedding models numbers as elements of a linear ordered field
(instantiated at `ℚ` for executable witnesses and at `ℝ` where the code
takes a genuine square root).  Where the source compares two Euclidean
distances, or a distance against a nonnegative threshold, the embedding
compares the squared distances: `Real.sqrt` is strictly monotone on
nonnegative inputs, so the comparison results agree; the bridging lemmas
`dist3_lt_iff` and `dist3_lt_dist3_iff` below record this equivalence
for the real instance.
-/

namespace Rhinovate

/-- A 3-component vector, mirroring `THREE.Vector3`.  The coordinate
type is a parameter so that the purely rational parts of the engine can
be run on `ℚ` while the parts that take square roots live on `ℝ`. -/
structure Vec3 (K : Type) where
  x : K
  y : K
  z : K
deriving DecidableEq, Repr

variable {K : Type} [LinearOrderedField K]

/-- Componentwise vector addition (`Vector3.add`). -/
def Vec3.add (a b : Vec3 K) : Vec3 K := ⟨a.x + b.x, a.y + b.y, a.z + b.z⟩

/-- Componentwise vector subtraction (`Vector3.subVectors`). -/
def Vec3.sub (a b : Vec3 K) : Vec3 K := ⟨a.x - b.x, a.y - b.y, a.z - b.z⟩

/-- Scalar multiplication (`Vector3.multiplyScalar`). -/
def Vec3.smul (c : K) (v : Vec3 K) : Vec3 K := ⟨c * v.x, c * v.y, c * v.z⟩

/-- The squared Euclidean norm of a vector. -/
def Vec3.normSq (v : Vec3 K) : K := v.x ^ 2 + v.y ^ 2 + v.z ^ 2

/-- The squared Euclidean distance between two points.  The source's
`Vector3.distanceTo` is the square root of this quantity; the engine
only ever compares distances (against each other or against nonnegative
thresholds) or squares them again, so the squared form is used in the
rational parts of the embedding. -/
def distSq (a b : Vec3 K) : K := (a.sub b).normSq

/-- The seven anatomical regions of `AnatomicalMeshEditor.tsx`
(type `NoseRegion` in the source): a closed enumeration. -/
inductive NoseRegion : Type
  | bridge
  | tip
  | leftNostril
  | rightNostril
  | leftSidewall
  | rightSidewall
  | columella
deriving DecidableEq, Repr

/-- A control point (interface `ControlPoint` in the source): a handle
position, its region, its influence radius and the vertex indices it
owns.  The `mesh` field of the source (the proxy sphere shown by the
renderer) always tracks `position` and is not modelled separately. -/
structure ControlPoint (K : Type) where
  position : Vec3 K
  region : NoseRegion
  influenceRadius : K
  vertexIndices : List Nat
deriving DecidableEq, Repr

/-- Componentwise minimum corner of the axis-aligned bounding box of a
vertex list (`THREE.Box3.setFromObject` with the identity world
transform).  The empty list is given the degenerate box at the
origin; the engine only ever runs on a loaded, nonempty mesh. -/
def boxMin : List (Vec3 K) → Vec3 K
  | [] => ⟨0, 0, 0⟩
  | v :: vs => vs.foldl (fun a b => ⟨min a.x b.x, min a.y b.y, min a.z b.z⟩) v

/-- Componentwise maximum corner of the axis-aligned bounding box. -/
def boxMax : List (Vec3 K) → Vec3 K
  | [] => ⟨0, 0, 0⟩
  | v :: vs => vs.foldl (fun a b => ⟨max a.x b.x, max a.y b.y, max a.z b.z⟩) v

/-- `Box3.getCenter`: the midpoint of the bounding box. -/
def boxCenter (vs : List (Vec3 K)) : Vec3 K :=
  Vec3.smul (1 / 2) ((boxMin vs).add (boxMax vs))

/-- `Box3.getSize`: the extents of the bounding box. -/
def boxSize (vs : List (Vec3 K)) : Vec3 K := (boxMax vs).sub (boxMin vs)

/-- `Math.max(size.x, size.y, size.z)`, the maximum model extent. -/
def maxExtent (s : Vec3 K) : K := max (max s.x s.y) s.z

/-- Box-normalized coordinate: `(x - (center - size/2)) / size`,
exactly as computed in `createAnatomicalControlMesh`. -/
def normCoord (center size coord : K) : K := (coord - (center - size / 2)) / size

/-- The tight central-frontal window of the first tip-anchor search
pass: `nx ∈ [0.45, 0.55]`, `ny ∈ [0.45, 0.6]`, `nz > 0.7`
(`AnatomicalMeshEditor.tsx` lines 182-184). -/
def strictTipWindow (center size : Vec3 K) (p : Vec3 K) : Bool :=
  let nx := normCoord center.x size.x p.x
  let ny := normCoord center.y size.y p.y
  let nz := normCoord center.z size.z p.z
  decide (45 / 100 ≤ nx ∧ nx ≤ 55 / 100 ∧ 45 / 100 ≤ ny ∧ ny ≤ 6 / 10 ∧ 7 / 10 < nz)

/-- The relaxed window of the second tip-anchor search pass:
`nx ∈ [0.4, 0.6]`, `ny ∈ [0.4, 0.65]`, `nz > 0.6`
(`AnatomicalMeshEditor.tsx` lines 207-209). -/
def relaxedTipWindow (center size : Vec3 K) (p : Vec3 K) : Bool :=
  let nx := normCoord center.x size.x p.x
  let ny := normCoord center.y size.y p.y
  let nz := normCoord center.z size.z p.z
  decide (4 / 10 ≤ nx ∧ nx ≤ 6 / 10 ∧ 4 / 10 ≤ ny ∧ ny ≤ 65 / 100 ∧ 6 / 10 < nz)

/-- One step of the tip-search loop: the source tracks `maxZ`
(initially `-Infinity`) and replaces the candidate whenever a vertex in
the window has strictly larger `z`; `none` plays the role of
`maxZ = -Infinity`. -/
def tipStep (w : Vec3 K → Bool) (acc : Option (Vec3 K)) (p : Vec3 K) : Option (Vec3 K) :=
  if w p then
    match acc with
    | none => some p
    | some q => if q.z < p.z then some p else some q
  else acc

/-- The full scan of one tip-search pass over the vertex list. -/
def tipFold (w : Vec3 K → Bool) (vs : List (Vec3 K)) : Option (Vec3 K) :=
  vs.foldl (tipStep w) none

/-- The three-stage tip-anchor search of `createAnatomicalControlMesh`
(lines 167-222): strict window, then relaxed window, then the
synthesized front-center of the bounding box. -/
def findNoseTip (vs : List (Vec3 K)) (center size : Vec3 K) : Vec3 K :=
  match tipFold (strictTipWindow center size) vs with
  | some p => p
  | none =>
    match tipFold (relaxedTipWindow center size) vs with
    | some p => p
    | none => ⟨center.x, center.y, center.z + size.z / 2⟩

/-- The per-region influence radius of `createControlPoint`
(lines 432-453).  The source initializes the radius to `size * 3` and
then overwrites it in a `switch` that covers every region, so only the
`switch` values are reachable. -/
def influenceRadiusFor (region : NoseRegion) (cpSize : K) : K :=
  match region with
  | .tip => cpSize * (5 / 2)
  | .bridge => cpSize * 4
  | .leftNostril => cpSize * (5 / 2)
  | .rightNostril => cpSize * (5 / 2)
  | .leftSidewall => cpSize * (7 / 2)
  | .rightSidewall => cpSize * (7 / 2)
  | .columella => cpSize * (5 / 2)

/-- `createControlPoint` (lines 407-463): builds a control point with
an empty owned-vertex list; the proxy sphere and its color are purely
visual and not modelled. -/
def createControlPoint (region : NoseRegion) (position : Vec3 K) (cpSize : K) :
    ControlPoint K :=
  { position := position
    region := region
    influenceRadius := influenceRadiusFor region cpSize
    vertexIndices := [] }

/-- The seven control points at their anchor-relative offsets, in
creation order (lines 234-302). -/
def initialControlPoints (t s : Vec3 K) (cpSize : K) : List (ControlPoint K) :=
  [ createControlPoint .bridge ⟨t.x, t.y + s.y * (15 / 100), t.z - s.z * (12 / 100)⟩ cpSize
  , createControlPoint .tip ⟨t.x, t.y, t.z⟩ cpSize
  , createControlPoint .leftNostril
      ⟨t.x - s.x * (12 / 100), t.y - s.y * (1 / 10), t.z - s.z * (8 / 100)⟩ cpSize
  , createControlPoint .rightNostril
      ⟨t.x + s.x * (12 / 100), t.y - s.y * (1 / 10), t.z - s.z * (8 / 100)⟩ cpSize
  , createControlPoint .leftSidewall
      ⟨t.x - s.x * (15 / 100), t.y + s.y * (8 / 100), t.z - s.z * (1 / 10)⟩ cpSize
  , createControlPoint .rightSidewall
      ⟨t.x + s.x * (15 / 100), t.y + s.y * (8 / 100), t.z - s.z * (1 / 10)⟩ cpSize
  , createControlPoint .columella
      ⟨t.x, t.y - s.y * (8 / 100), t.z - s.z * (6 / 100)⟩ cpSize ]

/-- `newControlPoints.find(cp => cp.region === r)`. -/
def findRegion (cps : List (ControlPoint K)) (r : NoseRegion) : Option (ControlPoint K) :=
  cps.find? (fun c => decide (c.region = r))

/-- One step of the nearest-control-point scan (lines 334-344): the
accumulator holds the current closest control point and the squared
form of the source's `minDistance`. -/
def nearestStep (v : Vec3 K) (acc : ControlPoint K × K) (c : ControlPoint K) :
    ControlPoint K × K :=
  if distSq v c.position < acc.2 then (c, distSq v c.position) else acc

/-- The nearest control point to `v` together with the squared minimum
distance; `none` only on an empty control-point list (the source
unconditionally indexes `newControlPoints[0]`). -/
def nearestCP (cps : List (ControlPoint K)) (v : Vec3 K) : Option (ControlPoint K × K) :=
  match cps with
  | [] => none
  | c :: rest => some (rest.foldl (nearestStep v) (c, distSq v c.position))

/-- The per-region rectangular-window overrides of lines 346-381,
applied after the nearest-by-distance choice.  A window whose region is
absent from the list leaves the current choice unchanged, mirroring the
`if (regionCP) closestControlPoint = regionCP` pattern. -/
def applyOverrides (cps : List (ControlPoint K)) (nx ny nz : K) (cur : ControlPoint K) :
    ControlPoint K :=
  if 55 / 100 < ny ∧ |nx - 1 / 2| < 15 / 100 ∧ 6 / 10 < nz then
    (findRegion cps .bridge).getD cur
  else if 75 / 100 < nz ∧ |nx - 1 / 2| < 15 / 100 ∧ 45 / 100 < ny ∧ ny < 6 / 10 then
    (findRegion cps .tip).getD cur
  else if ny < 45 / 100 ∧ 6 / 10 < nz then
    if nx < 45 / 100 then (findRegion cps .leftNostril).getD cur
    else if 55 / 100 < nx then (findRegion cps .rightNostril).getD cur
    else cur
  else if ny < 1 / 2 ∧ |nx - 1 / 2| < 1 / 10 ∧ 65 / 100 < nz then
    (findRegion cps .columella).getD cur
  else if 4 / 10 < ny ∧ ny < 6 / 10 ∧ 6 / 10 < nz then
    if nx < 45 / 100 then (findRegion cps .leftSidewall).getD cur
    else if 55 / 100 < nx then (findRegion cps .rightSidewall).getD cur
    else cur
  else cur

/-- Vertex-to-region assignment for a single vertex (lines 311-390).
Returns the region whose owned-vertex list receives the vertex, or
`none` when the vertex is skipped by the front-of-face filter or
dropped by the distance test.  The source's comparisons
`normalizedDistanceToTip > 0.3` and `minDistance < maxInfluenceDistance`
compare true distances; they are modelled on squared distances, which
agrees whenever the extents are nonnegative (always true of a bounding
box).  Note that `minDistance` is the distance to the *pre-override*
nearest control point: the window overrides of lines 346-381 change
`closestControlPoint` but never update `minDistance`. -/
def assignVertex (cps : List (ControlPoint K)) (center size tip : Vec3 K) (v : Vec3 K) :
    Option NoseRegion :=
  let nx := normCoord center.x size.x v.x
  let ny := normCoord center.y size.y v.y
  let nz := normCoord center.z size.z v.z
  if nz < 1 / 2 ∧ (3 / 10 * maxExtent size) ^ 2 < distSq v tip then none
  else
    match nearestCP cps v with
    | none => none
    | some pr =>
      let assigned := applyOverrides cps nx ny nz pr.1
      if pr.2 < (2 / 10 * maxExtent size) ^ 2 then some assigned.region else none

/-- `createAnatomicalControlMesh` (lines 145-404): bounding box, tip
anchor, the seven control points, and the owned-vertex lists.  Each
vertex is pushed onto exactly one control point's list in ascending
index order, so the final list of a control point is the ascending
filter of the vertex indices assigned to its region. -/
def createAnatomicalControlMesh (vs : List (Vec3 K)) : Vec3 K × List (ControlPoint K) :=
  let center := boxCenter vs
  let size := boxSize vs
  let cpSize := min (min size.x size.y) size.z * (4 / 100)
  let tip := findNoseTip vs center size
  let cps := initialControlPoints tip size cpSize
  (tip, cps.map fun cp =>
    { cp with vertexIndices :=
        (List.range vs.length).filter fun i =>
          decide (assignVertex cps center size tip (vs.getD i ⟨0, 0, 0⟩) = some cp.region) })

/-- `VertexInteraction.tsx` lines 309-328: the scan for the classified
vertex closest to a mesh-surface intersection point.  `none` plays the
role of `closestVertex = -1` / `minDistance = Infinity`; the second
component is the squared form of `minDistance`. -/
def closestStep (pt : Vec3 K) (ps : List (Vec3 K)) (acc : Option (Nat × K)) (j : Nat) :
    Option (Nat × K) :=
  let d := distSq (ps.getD j ⟨0, 0, 0⟩) pt
  match acc with
  | none => some (j, d)
  | some pr => if d < pr.2 then some (j, d) else acc

/-- The scan of `closestStep` over the classified nose-vertex list
(only those indices are examined, never all mesh vertices). -/
def closestVertex (nv : List Nat) (ps : List (Vec3 K)) (pt : Vec3 K) : Option (Nat × K) :=
  nv.foldl (closestStep pt ps) none

/-- The pick resolution of `VertexInteraction.handleMouseDown`
(lines 250-349).  The ray casts against the scene are external
(three.js `Raycaster`); their results enter as data: `markerHits` is
the list of vertex indices of the hit vertex markers ordered by ray
distance, and `meshHit` the closest mesh-surface intersection point, if
any.  Marker hits are consulted first and, on a hit, the mesh phase is
never entered; otherwise a surface hit selects the closest classified
vertex exactly when its (squared) distance beats the fixed selection
threshold `0.2` (squared here, cf. `dist3_lt_iff`). -/
def pickVertexTarget (markerHits : List Nat) (meshHit : Option (Vec3 K))
    (nv : List Nat) (ps : List (Vec3 K)) : Option Nat :=
  match markerHits with
  | i :: _ => some i
  | [] =>
    match meshHit with
    | none => none
    | some pt =>
      match closestVertex nv ps pt with
      | none => none
      | some pr => if pr.2 < (2 / 10 : K) ^ 2 then some pr.1 else none

/-- The interaction state of `AnatomicalMeshEditor`
(`selectedControlPoint`, `isDragging`). -/
structure AnatInteraction : Type where
  selectedControlPoint : Option NoseRegion
  isDragging : Bool
deriving DecidableEq, Repr

/-- `AnatomicalMeshEditor.handleMouseDown` (lines 647-686) as a state
transition: a successful control-point pick selects it and starts
dragging; a failed pick leaves the state untouched. -/
def anatMouseDown (pick : Option NoseRegion) (s : AnatInteraction) : AnatInteraction :=
  match pick with
  | some r => { selectedControlPoint := some r, isDragging := true }
  | none => s

/-- `AnatomicalMeshEditor.handleMouseUp` (lines 741-743): only
`setIsDragging(false)`; the selected control point is left as is. -/
def anatMouseUp (s : AnatInteraction) : AnatInteraction :=
  { s with isDragging := false }

/-- The interaction state of `useVertexInteraction`
(`selectedVertex`, `isDragging`). -/
structure VertexInteractionState : Type where
  selectedVertex : Option Nat
  isDragging : Bool
deriving DecidableEq, Repr

/-- `VertexInteraction.handleMouseDown` as a state transition on a
resolved pick: a successful pick selects and starts dragging, a failed
pick changes nothing. -/
def vertexMouseDown (pick : Option Nat) (s : VertexInteractionState) : VertexInteractionState :=
  match pick with
  | some i => { selectedVertex := some i, isDragging := true }
  | none => s

/-- `VertexInteraction.handleMouseUp` (lines 58-61):
`setIsDragging(false)` and `setSelectedVertex(null)`. -/
def vertexMouseUp (_ : VertexInteractionState) : VertexInteractionState :=
  { selectedVertex := none, isDragging := false }

/-- `NoseAdjustments.adjustNoseBridge` (lines 61-106): raises vertices
of the bridge window by the amplified slider amount with an `x`-falloff. -/
def adjustNoseBridge (nv : List Nat) (amount : K) (ps : List (Vec3 K)) : List (Vec3 K) :=
  let center := boxCenter ps
  let size := boxSize ps
  let amplified := amount * (3 / 10) * size.y
  (List.range ps.length).map fun i =>
    let p := ps.getD i ⟨0, 0, 0⟩
    if i ∈ nv then
      let xDistN := |p.x - center.x| / (size.x / 2)
      let nY := normCoord center.y size.y p.y
      if xDistN < 1 / 2 ∧ 1 / 2 < nY then ⟨p.x, p.y + amplified * (1 - xDistN), p.z⟩
      else p
    else p

/-- The front-most `z` over the nose-vertex indices
(`NoseAdjustments.tsx` lines 126-130); `none` plays `-Infinity` on an
empty list, in which case the adjustment loop has nothing to do. -/
def maxZOver (nv : List Nat) (ps : List (Vec3 K)) : Option K :=
  nv.foldl (fun a i =>
    let z := (ps.getD i ⟨0, 0, 0⟩).z
    match a with
    | none => some z
    | some m => some (max m z)) none

/-- `NoseAdjustments.adjustNoseTip` (lines 109-181). -/
def adjustNoseTip (nv : List Nat) (amount : K) (ps : List (Vec3 K)) : List (Vec3 K) :=
  let center := boxCenter ps
  let size := boxSize ps
  let amplified := amount * (1 / 2) * size.z
  match maxZOver nv ps with
  | none => ps
  | some maxZ =>
    (List.range ps.length).map fun i =>
      let p := ps.getD i ⟨0, 0, 0⟩
      if i ∈ nv then
        let xDistN := |p.x - center.x| / (size.x / 2)
        let nY := normCoord center.y size.y p.y
        let zDistN := (maxZ - p.z) / (size.z / 2)
        let isCentral := decide (xDistN < 1 / 2)
        let isInY := decide (2 / 10 < nY ∧ nY < 9 / 10)
        let isNearFront := decide (zDistN < 1 / 2)
        let isFrontMost := decide (zDistN < 1 / 10)
        if (isCentral && isInY && isNearFront) || isFrontMost then
          let falloff := if isFrontMost then 1 else (1 - xDistN) * (1 - zDistN)
          ⟨p.x, p.y, p.z + amplified * falloff⟩
        else p
      else p

/-- `NoseAdjustments.adjustNostrilWidth` (lines 184-237). -/
def adjustNostrilWidth (nv : List Nat) (amount : K) (ps : List (Vec3 K)) : List (Vec3 K) :=
  let center := boxCenter ps
  let size := boxSize ps
  let amplified := amount * (3 / 10) * size.x
  (List.range ps.length).map fun i =>
    let p := ps.getD i ⟨0, 0, 0⟩
    if i ∈ nv then
      let xDistN := |p.x - center.x| / (size.x / 2)
      let nY := normCoord center.y size.y p.y
      let nZ := normCoord center.z size.z p.z
      if 2 / 10 < xDistN ∧ 2 / 10 < nY ∧ nY < 6 / 10 ∧ 1 / 2 < nZ then
        let falloff := xDistN * (1 - |nY - 4 / 10|)
        let direction : K := if center.x < p.x then 1 else -1
        ⟨p.x + direction * (amplified * falloff), p.y, p.z⟩
      else p
    else p

/-- The Euclidean norm on real vectors (`Vector3.length`). -/
noncomputable def norm3 (v : Vec3 ℝ) : ℝ := Real.sqrt v.normSq

/-- The Euclidean distance on real vectors (`Vector3.distanceTo`). -/
noncomputable def dist3 (a b : Vec3 ℝ) : ℝ := norm3 (a.sub b)

/-- The per-step displacement clamp of `handleMouseMove`
(`AnatomicalMeshEditor.tsx` lines 720-724): if the move vector is
longer than 10% of the bounding-sphere radius `r` it is rescaled
(`normalize().multiplyScalar(r * 0.1)`, i.e. multiplied by
`(r * 0.1) / length`) to that length. -/
noncomputable def clampMove (r : ℝ) (v : Vec3 ℝ) : Vec3 ℝ :=
  if r * (1 / 10) < norm3 v then Vec3.smul (r * (1 / 10) / norm3 v) v else v

/-- The direct falloff weight of `updateInfluencedVertices`
(lines 780-786): `max(0, 1 - (d / influenceRadius)^2)` with `d` the
distance from the vertex to the control point. -/
noncomputable def directFactor (cp : ControlPoint ℝ) (p : Vec3 ℝ) : ℝ :=
  max 0 (1 - (dist3 p cp.position / cp.influenceRadius) ^ 2)

/-- The direct pass of `updateInfluencedVertices` (lines 773-795):
every vertex owned by the dragged control point is displaced by
`moveVector * directFactor`. -/
noncomputable def applyDirect (cp : ControlPoint ℝ) (mv : Vec3 ℝ) (ps : List (Vec3 ℝ)) :
    List (Vec3 ℝ) :=
  (List.range ps.length).map fun i =>
    let p := ps.getD i ⟨0, 0, 0⟩
    if i ∈ cp.vertexIndices then p.add (Vec3.smul (directFactor cp p) mv) else p

/-- The combined cross-region weight of lines 801-824: the inter-handle
distance is normalized by `modelSize * 0.3`; beyond 1 the region is
skipped (`continue`), otherwise the region-level influence
`max(0, 1 - nd^2)` is multiplied by the vertex-local linear falloff
`max(0, 1 - d / influenceRadius)` and the fixed cross-region weight
`0.7`. -/
noncomputable def crossFactor (modelSize : ℝ) (cp o : ControlPoint ℝ) (p : Vec3 ℝ) : ℝ :=
  let nd := dist3 o.position cp.position / (modelSize * (3 / 10))
  if 1 < nd then 0
  else max 0 (1 - nd ^ 2) * max 0 (1 - dist3 p o.position / o.influenceRadius) * (7 / 10)

/-- The cross-region pass of `updateInfluencedVertices`
(lines 797-834), folded over the other control points in order; each
pass reads the positions produced by the previous one, exactly as the
in-place writes of the source do. -/
noncomputable def applyCross (modelSize : ℝ) (cp : ControlPoint ℝ)
    (others : List (ControlPoint ℝ)) (mv : Vec3 ℝ) (ps : List (Vec3 ℝ)) : List (Vec3 ℝ) :=
  others.foldl (fun qs o =>
    (List.range qs.length).map fun i =>
      let p := qs.getD i ⟨0, 0, 0⟩
      if i ∈ o.vertexIndices then p.add (Vec3.smul (crossFactor modelSize cp o p) mv) else p) ps

/-- `updateInfluencedVertices` (lines 763-839): model size from the
current bounding box, the direct pass over the dragged control point's
vertices, then the cross-region pass over all other control points
(`controlPoints.filter(cp => cp !== controlPoint)`). -/
noncomputable def updateInfluencedVertices (cps : List (ControlPoint ℝ))
    (cp : ControlPoint ℝ) (mv : Vec3 ℝ) (ps : List (Vec3 ℝ)) : List (Vec3 ℝ) :=
  let modelSize := maxExtent (boxSize ps)
  applyCross modelSize cp
    (cps.filter fun o => @decide (¬o = cp) (Classical.propDecidable _)) mv
    (applyDirect cp mv ps)

/-- The drag-move step of `AnatomicalMeshEditor.handleMouseMove`
(lines 689-738).  `r` is the mesh's bounding-sphere radius
(`boundingSphere?.radius || 1.0`) and `target` the plane-intersection
point of the pointer ray.  The move vector is clamped, but the control
point's stored position (lines 727-728, which the proxy sphere copies)
is set to the full, unclamped `target`; the mutated control point also
replaces the old one inside the control-point array, so the
cross-region filter removes exactly it.  Returns the updated selected
control point, the updated control-point list and the deformed
positions. -/
noncomputable def handleMouseMove (r : ℝ) (cps : List (ControlPoint ℝ))
    (sel : ControlPoint ℝ) (target : Vec3 ℝ) (ps : List (Vec3 ℝ)) :
    ControlPoint ℝ × List (ControlPoint ℝ) × List (Vec3 ℝ) :=
  let mv := clampMove r (target.sub sel.position)
  let sel2 : ControlPoint ℝ := { sel with position := target }
  let cps2 := cps.map fun o =>
    @ite _ (o = sel) (Classical.propDecidable _) sel2 o
  (sel2, cps2, updateInfluencedVertices cps2 sel2 mv ps)

/-- The editor session state: current vertex positions, current
normals, the original-geometry snapshot (`originalGeometry`, a deep
clone taken at load time, lines 66-72) and the control-point set. -/
structure EditorState : Type where
  positions : List (Vec3 ℝ)
  normals : List (Vec3 ℝ)
  snapshot : List (Vec3 ℝ)
  controlPoints : List (ControlPoint ℝ)

/-- `AnatomicalMeshEditor.resetNose` (lines 974-1014): every vertex
position is overwritten with the snapshot value (the explicit
per-coordinate copy loop of lines 994-999), normals are recomputed from
the restored geometry (`computeVertexNormals`, an external three.js
routine modelled by the parameter `normalsOf`), and
`createAnatomicalControlMesh` is re-run on the restored geometry. -/
noncomputable def resetNose (normalsOf : List (Vec3 ℝ) → List (Vec3 ℝ)) (s : EditorState) :
    EditorState :=
  { positions := s.snapshot
    normals := normalsOf s.snapshot
    snapshot := s.snapshot
    controlPoints := (createAnatomicalControlMesh s.snapshot).2 }

/-- One deformation step of an editing session: either a handle drag
(`handleMouseMove`, which runs `updateInfluencedVertices` and
recomputes normals) or one of the three slider adjustments of
`NoseAdjustments.tsx`.  No step touches the snapshot: the source clones
the original geometry at load time and never writes to the clone. -/
inductive EditStep (normalsOf : List (Vec3 ℝ) → List (Vec3 ℝ)) :
    EditorState → EditorState → Prop
  | drag (s : EditorState) (r : ℝ) (sel : ControlPoint ℝ) (target : Vec3 ℝ) :
      sel ∈ s.controlPoints →
      EditStep normalsOf s
        { positions := (handleMouseMove r s.controlPoints sel target s.positions).2.2
          normals := normalsOf (handleMouseMove r s.controlPoints sel target s.positions).2.2
          snapshot := s.snapshot
          controlPoints := (handleMouseMove r s.controlPoints sel target s.positions).2.1 }
  | bridgeSlider (s : EditorState) (nv : List Nat) (amount : ℝ) :
      EditStep normalsOf s
        { positions := adjustNoseBridge nv amount s.positions
          normals := normalsOf (adjustNoseBridge nv amount s.positions)
          snapshot := s.snapshot
          controlPoints := s.controlPoints }
  | tipSlider (s : EditorState) (nv : List Nat) (amount : ℝ) :
      EditStep normalsOf s
        { positions := adjustNoseTip nv amount s.positions
          normals := normalsOf (adjustNoseTip nv amount s.positions)
          snapshot := s.snapshot
          controlPoints := s.controlPoints }
  | nostrilSlider (s : EditorState) (nv : List Nat) (amount : ℝ) :
      EditStep normalsOf s
        { positions := adjustNostrilWidth nv amount s.positions
          normals := normalsOf (adjustNostrilWidth nv amount s.positions)
          snapshot := s.snapshot
          controlPoints := s.controlPoints }

/-- Pairwise disjointness of the owned-vertex lists of a control-point
list: each vertex is owned by at most one control point. -/
def OwnersDisjoint (cps : List (ControlPoint ℝ)) : Prop :=
  List.Pairwise (fun a b => ∀ i, i ∈ a.vertexIndices → i ∉ b.vertexIndices) cps

/-- A concrete four-vertex mesh used to exercise the classifier on a
unit (scaled by 100) bounding box: two box corners, a tip-anchor
candidate inside the strict window, and a vertex close to the tip
handle that the bridge window override captures. -/
def meshFixture : List (Vec3 ℚ) :=
  [⟨0, 0, 0⟩, ⟨100, 100, 100⟩, ⟨50, 58, 95⟩, ⟨50, 62, 100⟩]

/-- A degenerate mesh: a single vertex, whose bounding box has zero
extent on every axis. -/
def meshDegenerate : List (Vec3 ℚ) := [⟨0, 0, 0⟩]

lemma Vec3.normSq_nonneg (v : Vec3 K) : 0 ≤ v.normSq := by
  have hx := sq_nonneg v.x
  have hy := sq_nonneg v.y
  have hz := sq_nonneg v.z
  unfold Vec3.normSq
  linarith

lemma distSq_nonneg (a b : Vec3 K) : 0 ≤ distSq a b := Vec3.normSq_nonneg _

lemma Vec3.smul_zero3 (v : Vec3 K) : Vec3.smul 0 v = ⟨0, 0, 0⟩ := by
  simp [Vec3.smul]

lemma Vec3.add_zero3 (p : Vec3 K) : p.add ⟨0, 0, 0⟩ = p := by
  simp [Vec3.add]

lemma Vec3.add_sub_cancel3 (p v : Vec3 K) : (p.add v).sub p = v := by
  simp [Vec3.add, Vec3.sub]

lemma Vec3.add_add3 (p v w : Vec3 K) : (p.add v).add w = p.add (v.add w) := by
  simp [Vec3.add]; constructor
  · ring
  constructor
  · ring
  · ring

lemma Vec3.smul_add_smul (c d : K) (v : Vec3 K) :
    (Vec3.smul c v).add (Vec3.smul d v) = Vec3.smul (c + d) v := by
  simp [Vec3.add, Vec3.smul]; constructor
  · ring
  constructor
  · ring
  · ring

lemma norm3_nonneg (v : Vec3 ℝ) : 0 ≤ norm3 v := Real.sqrt_nonneg _

lemma dist3_nonneg (a b : Vec3 ℝ) : 0 ≤ dist3 a b := Real.sqrt_nonneg _

lemma dist3_sq (a b : Vec3 ℝ) : dist3 a b ^ 2 = distSq a b :=
  Real.sq_sqrt (Vec3.normSq_nonneg _)

lemma dist3_self (a : Vec3 ℝ) : dist3 a a = 0 := by
  simp [dist3, norm3, Vec3.sub, Vec3.normSq]

/-- Comparing a distance against a positive threshold is the same as
comparing the squared distance against the squared threshold: this is
why the embedding may compare `distSq` where the source compares
`Vector3.distanceTo` results. -/
lemma dist3_lt_iff (a b : Vec3 ℝ) (c : ℝ) (hc : 0 < c) :
    dist3 a b < c ↔ distSq a b < c ^ 2 :=
  Real.sqrt_lt' hc

/-- Comparing two distances is the same as comparing the two squared
distances. -/
lemma dist3_lt_dist3_iff (a b a' b' : Vec3 ℝ) :
    dist3 a b < dist3 a' b' ↔ distSq a b < distSq a' b' :=
  Real.sqrt_lt_sqrt_iff (Vec3.normSq_nonneg _)

lemma norm3_smul (c : ℝ) (v : Vec3 ℝ) : norm3 (Vec3.smul c v) = |c| * norm3 v := by
  unfold norm3 Vec3.smul Vec3.normSq
  have h : (c * v.x) ^ 2 + (c * v.y) ^ 2 + (c * v.z) ^ 2
      = c ^ 2 * (v.x ^ 2 + v.y ^ 2 + v.z ^ 2) := by ring
  simp only [h]
  rw [Real.sqrt_mul (sq_nonneg c), Real.sqrt_sq_eq_abs]

lemma dist3_add_smul (p : Vec3 ℝ) (f : ℝ) (mv : Vec3 ℝ) :
    dist3 (p.add (Vec3.smul f mv)) p = |f| * norm3 mv := by
  unfold dist3
  rw [Vec3.add_sub_cancel3, norm3_smul]

/-- Evaluating a Lean-side `sqrt` at a perfect square, used in the
concrete witnesses. -/
lemma sqrt_eq_of_sq (a b : ℝ) (hb : 0 ≤ b) (h : a = b ^ 2) : Real.sqrt a = b := by
  rw [h, Real.sqrt_sq hb]

lemma getD_range_map {α : Type} (f : Nat → α) (n i : Nat) (d : α) :
    ((List.range n).map f).getD i d = if i < n then f i else d := by
  by_cases h : i < n
  · rw [List.getD_eq_getElem?_getD]
    rw [List.getElem?_map]
    rw [List.getElem?_range h]
    simp [h]
  · rw [List.getD_eq_getElem?_getD]
    rw [List.getElem?_map]
    have : (List.range n)[i]? = none := by
      rw [List.getElem?_eq_none]
      simpa using Nat.le_of_not_lt h
    rw [this]
    simp [h]

lemma length_range_map {α : Type} (f : Nat → α) (n : Nat) :
    ((List.range n).map f).length = n := by
  simp

lemma tipStep_skip (w : Vec3 K → Bool) (acc : Option (Vec3 K)) (p : Vec3 K)
    (hw : w p = false) : tipStep w acc p = acc := by
  unfold tipStep
  rw [hw]
  simp

lemma tipStep_none (w : Vec3 K → Bool) (p : Vec3 K) (hw : w p = true) :
    tipStep w none p = some p := by
  unfold tipStep
  rw [hw]
  simp

lemma tipStep_some_lt (w : Vec3 K → Bool) (q p : Vec3 K) (hw : w p = true)
    (h : q.z < p.z) : tipStep w (some q) p = some p := by
  unfold tipStep
  rw [hw]
  simp [h]

lemma tipStep_some_ge (w : Vec3 K → Bool) (q p : Vec3 K) (hw : w p = true)
    (h : ¬q.z < p.z) : tipStep w (some q) p = some q := by
  unfold tipStep
  rw [hw]
  simp [h]

lemma tipFold_go_none (w : Vec3 K → Bool) (vs : List (Vec3 K)) :
    ∀ acc, vs.foldl (tipStep w) acc = none ↔ acc = none ∧ ∀ v ∈ vs, w v = false := by
  induction vs with
  | nil => intro acc; simp
  | cons a as ih =>
    intro acc
    rw [List.foldl_cons, ih]
    constructor
    · rintro ⟨h1, h2⟩
      by_cases hw : w a
      · exfalso
        cases acc with
        | none => rw [tipStep_none w a hw] at h1; exact Option.noConfusion h1
        | some q =>
          by_cases hz : q.z < a.z
          · rw [tipStep_some_lt w q a hw hz] at h1; exact Option.noConfusion h1
          · rw [tipStep_some_ge w q a hw hz] at h1; exact Option.noConfusion h1
      · rw [tipStep_skip w acc a (Bool.eq_false_iff.mpr hw)] at h1
        refine ⟨h1, ?_⟩
        intro v hv
        rcases List.mem_cons.mp hv with h | h
        · subst h; exact Bool.eq_false_iff.mpr hw
        · exact h2 v h
    · rintro ⟨h1, h2⟩
      have hw : w a = false := h2 a (List.mem_cons_self a as)
      rw [tipStep_skip w acc a hw]
      exact ⟨h1, fun v hv => h2 v (List.mem_cons_of_mem a hv)⟩

lemma tipFold_go_some (w : Vec3 K → Bool) (vs : List (Vec3 K)) :
    ∀ acc p, vs.foldl (tipStep w) acc = some p →
      (acc = some p ∨ (p ∈ vs ∧ w p = true)) ∧
      (∀ q, acc = some q → q.z ≤ p.z) ∧
      (∀ v ∈ vs, w v = true → v.z ≤ p.z) := by
  induction vs with
  | nil =>
    intro acc p h
    simp only [List.foldl_nil] at h
    refine ⟨Or.inl h, ?_, by simp⟩
    rintro q hq
    rw [h] at hq
    cases hq
    exact le_refl _
  | cons a as ih =>
    intro acc p h
    rw [List.foldl_cons] at h
    obtain ⟨h1, h2, h3⟩ := ih (tipStep w acc a) p h
    by_cases hw : w a
    · have haz : a.z ≤ p.z := by
        cases acc with
        | none => exact h2 a (tipStep_none w a hw)
        | some q0 =>
          by_cases hz : q0.z < a.z
          · exact h2 a (tipStep_some_lt w q0 a hw hz)
          · exact le_trans (le_of_not_lt hz) (h2 q0 (tipStep_some_ge w q0 a hw hz))
      refine ⟨?_, ?_, ?_⟩
      · rcases h1 with h1 | h1
        · cases acc with
          | none =>
            rw [tipStep_none w a hw] at h1
            cases h1
            exact Or.inr ⟨List.mem_cons_self _ _, hw⟩
          | some q0 =>
            by_cases hz : q0.z < a.z
            · rw [tipStep_some_lt w q0 a hw hz] at h1
              cases h1
              exact Or.inr ⟨List.mem_cons_self _ _, hw⟩
            · rw [tipStep_some_ge w q0 a hw hz] at h1
              exact Or.inl h1
        · exact Or.inr ⟨List.mem_cons_of_mem a h1.1, h1.2⟩
      · intro q hq
        subst hq
        by_cases hz : q.z < a.z
        · exact le_trans (le_of_lt hz) haz
        · exact h2 q (tipStep_some_ge w q a hw hz)
      · intro v hv hwv
        rcases List.mem_cons.mp hv with h | h
        · subst h; exact haz
        · exact h3 v h hwv
    · rw [tipStep_skip w acc a (Bool.eq_false_iff.mpr hw)] at h1 h2
      refine ⟨?_, h2, ?_⟩
      · rcases h1 with h1 | h1
        · exact Or.inl h1
        · exact Or.inr ⟨List.mem_cons_of_mem a h1.1, h1.2⟩
      · intro v hv hwv
        rcases List.mem_cons.mp hv with h | h
        · subst h; exact absurd hwv hw
        · exact h3 v h hwv

lemma tipFold_eq_none_iff (w : Vec3 K → Bool) (vs : List (Vec3 K)) :
    tipFold w vs = none ↔ ∀ v ∈ vs, w v = false := by
  unfold tipFold
  rw [tipFold_go_none]
  simp

lemma tipFold_spec (w : Vec3 K → Bool) (vs : List (Vec3 K)) (p : Vec3 K)
    (h : tipFold w vs = some p) :
    p ∈ vs ∧ w p = true ∧ ∀ v ∈ vs, w v = true → v.z ≤ p.z := by
  obtain ⟨h1, _, h3⟩ := tipFold_go_some w vs none p h
  rcases h1 with h1 | h1
  · exact Option.noConfusion h1
  · exact ⟨h1.1, h1.2, h3⟩

lemma tipFold_isSome (w : Vec3 K → Bool) (vs : List (Vec3 K)) (v : Vec3 K)
    (hv : v ∈ vs) (hw : w v = true) : ∃ p, tipFold w vs = some p := by
  cases h : tipFold w vs with
  | some p => exact ⟨p, rfl⟩
  | none =>
    rw [tipFold_eq_none_iff] at h
    rw [h v hv] at hw
    exact Bool.noConfusion hw

lemma nearestFold_spec (v : Vec3 K) (cps : List (ControlPoint K)) :
    ∀ acc : ControlPoint K × K, acc.2 = distSq v acc.1.position →
      (cps.foldl (nearestStep v) acc).2
          = distSq v (cps.foldl (nearestStep v) acc).1.position ∧
      ((cps.foldl (nearestStep v) acc).1 = acc.1 ∨ (cps.foldl (nearestStep v) acc).1 ∈ cps) ∧
      (cps.foldl (nearestStep v) acc).2 ≤ acc.2 ∧
      ∀ c ∈ cps, (cps.foldl (nearestStep v) acc).2 ≤ distSq v c.position := by
  induction cps with
  | nil =>
    intro acc hacc
    simpa using hacc
  | cons c cs ih =>
    intro acc hacc
    rw [List.foldl_cons]
    have hstep : (nearestStep v acc c).2 = distSq v (nearestStep v acc c).1.position := by
      unfold nearestStep
      by_cases h : distSq v c.position < acc.2
      · rw [if_pos h]
      · rw [if_neg h]; exact hacc
    obtain ⟨g1, g2, g3, g4⟩ := ih (nearestStep v acc c) hstep
    have hle : (nearestStep v acc c).2 ≤ acc.2 := by
      unfold nearestStep
      by_cases h : distSq v c.position < acc.2
      · rw [if_pos h]; exact le_of_lt h
      · rw [if_neg h]
    have hlec : (nearestStep v acc c).2 ≤ distSq v c.position := by
      unfold nearestStep
      by_cases h : distSq v c.position < acc.2
      · rw [if_pos h]
      · rw [if_neg h]; exact le_of_not_lt h
    refine ⟨g1, ?_, le_trans g3 hle, ?_⟩
    · rcases g2 with g2 | g2
      · rw [g2]
        unfold nearestStep
        by_cases h : distSq v c.position < acc.2
        · rw [if_pos h]; exact Or.inr (List.mem_cons_self _ _)
        · rw [if_neg h]; exact Or.inl rfl
      · exact Or.inr (List.mem_cons_of_mem c g2)
    · intro c' hc'
      rcases List.mem_cons.mp hc' with h | h
      · subst h; exact le_trans g3 hlec
      · exact g4 c' h

lemma nearestCP_spec (v : Vec3 K) (cps : List (ControlPoint K)) (pr : ControlPoint K × K)
    (h : nearestCP cps v = some pr) :
    pr.1 ∈ cps ∧ pr.2 = distSq v pr.1.position ∧
      ∀ c ∈ cps, pr.2 ≤ distSq v c.position := by
  cases cps with
  | nil => exact Option.noConfusion h
  | cons c cs =>
    unfold nearestCP at h
    have h' := Option.some.inj h
    obtain ⟨g1, g2, g3, g4⟩ := nearestFold_spec v cs (c, distSq v c.position) rfl
    rw [h'] at g1 g2 g3 g4
    refine ⟨?_, g1, ?_⟩
    · rcases g2 with g2 | g2
      · rw [g2]; exact List.mem_cons_self _ _
      · exact List.mem_cons_of_mem c g2
    · intro c' hc'
      rcases List.mem_cons.mp hc' with hh | hh
      · subst hh; exact g3
      · exact g4 c' hh

lemma closestStep_none (pt : Vec3 K) (ps : List (Vec3 K)) (j : Nat) :
    closestStep pt ps none j = some (j, distSq (ps.getD j ⟨0, 0, 0⟩) pt) := rfl

lemma closestStep_some_lt (pt : Vec3 K) (ps : List (Vec3 K)) (pr : Nat × K) (j : Nat)
    (h : distSq (ps.getD j ⟨0, 0, 0⟩) pt < pr.2) :
    closestStep pt ps (some pr) j = some (j, distSq (ps.getD j ⟨0, 0, 0⟩) pt) := by
  simp only [closestStep]
  rw [if_pos h]

lemma closestStep_some_ge (pt : Vec3 K) (ps : List (Vec3 K)) (pr : Nat × K) (j : Nat)
    (h : ¬distSq (ps.getD j ⟨0, 0, 0⟩) pt < pr.2) :
    closestStep pt ps (some pr) j = some pr := by
  simp only [closestStep]
  rw [if_neg h]

lemma closest_go_none (pt : Vec3 K) (ps : List (Vec3 K)) (nv : List Nat) :
    ∀ acc, nv.foldl (closestStep pt ps) acc = none ↔ acc = none ∧ nv = [] := by
  induction nv with
  | nil => intro acc; simp
  | cons j js ih =>
    intro acc
    rw [List.foldl_cons, ih]
    constructor
    · rintro ⟨h1, _⟩
      exfalso
      cases acc with
      | none => rw [closestStep_none] at h1; exact Option.noConfusion h1
      | some pr =>
        by_cases h : distSq (ps.getD j ⟨0, 0, 0⟩) pt < pr.2
        · rw [closestStep_some_lt pt ps pr j h] at h1; exact Option.noConfusion h1
        · rw [closestStep_some_ge pt ps pr j h] at h1; exact Option.noConfusion h1
    · rintro ⟨_, h⟩
      exact List.noConfusion h

lemma closest_go_some (pt : Vec3 K) (ps : List (Vec3 K)) (nv : List Nat) :
    ∀ acc pr, nv.foldl (closestStep pt ps) acc = some pr →
      (acc = some pr ∨ (pr.1 ∈ nv ∧ pr.2 = distSq (ps.getD pr.1 ⟨0, 0, 0⟩) pt)) ∧
      (∀ q, acc = some q → pr.2 ≤ q.2) ∧
      (∀ k ∈ nv, pr.2 ≤ distSq (ps.getD k ⟨0, 0, 0⟩) pt) := by
  induction nv with
  | nil =>
    intro acc pr h
    simp only [List.foldl_nil] at h
    refine ⟨Or.inl h, ?_, by simp⟩
    rintro q hq
    rw [h] at hq
    cases hq
    exact le_refl _
  | cons j js ih =>
    intro acc pr h
    rw [List.foldl_cons] at h
    obtain ⟨h1, h2, h3⟩ := ih (closestStep pt ps acc j) pr h
    have hd : pr.2 ≤ distSq (ps.getD j ⟨0, 0, 0⟩) pt := by
      cases acc with
      | none =>
        have := h2 _ (closestStep_none pt ps j)
        simpa using this
      | some q0 =>
        by_cases hlt : distSq (ps.getD j ⟨0, 0, 0⟩) pt < q0.2
        · have := h2 _ (closestStep_some_lt pt ps q0 j hlt)
          simpa using this
        · exact le_trans (h2 q0 (closestStep_some_ge pt ps q0 j hlt)) (le_of_not_lt hlt)
    refine ⟨?_, ?_, ?_⟩
    · rcases h1 with h1 | h1
      · cases acc with
        | none =>
          rw [closestStep_none] at h1
          cases h1
          exact Or.inr ⟨List.mem_cons_self _ _, rfl⟩
        | some q0 =>
          by_cases hlt : distSq (ps.getD j ⟨0, 0, 0⟩) pt < q0.2
          · rw [closestStep_some_lt pt ps q0 j hlt] at h1
            cases h1
            exact Or.inr ⟨List.mem_cons_self _ _, rfl⟩
          · rw [closestStep_some_ge pt ps q0 j hlt] at h1
            exact Or.inl h1
      · exact Or.inr ⟨List.mem_cons_of_mem j h1.1, h1.2⟩
    · intro q hq
      subst hq
      by_cases hlt : distSq (ps.getD j ⟨0, 0, 0⟩) pt < q.2
      · exact le_trans hd (le_of_lt hlt)
      · exact h2 q (closestStep_some_ge pt ps q j hlt)
    · intro k hk
      rcases List.mem_cons.mp hk with hh | hh
      · subst hh; exact hd
      · exact h3 k hh

lemma closestVertex_spec (pt : Vec3 K) (ps : List (Vec3 K)) (nv : List Nat)
    (pr : Nat × K) (h : closestVertex nv ps pt = some pr) :
    pr.1 ∈ nv ∧ pr.2 = distSq (ps.getD pr.1 ⟨0, 0, 0⟩) pt ∧
      ∀ k ∈ nv, pr.2 ≤ distSq (ps.getD k ⟨0, 0, 0⟩) pt := by
  obtain ⟨h1, _, h3⟩ := closest_go_some pt ps nv none pr h
  rcases h1 with h1 | h1
  · exact Option.noConfusion h1
  · exact ⟨h1.1, h1.2, h3⟩

lemma closestVertex_eq_none_iff (pt : Vec3 K) (ps : List (Vec3 K)) (nv : List Nat) :
    closestVertex nv ps pt = none ↔ nv = [] := by
  unfold closestVertex
  rw [closest_go_none]
  simp

lemma directFactor_nonneg (cp : ControlPoint ℝ) (p : Vec3 ℝ) : 0 ≤ directFactor cp p :=
  le_max_left 0 _

lemma directFactor_le_one (cp : ControlPoint ℝ) (p : Vec3 ℝ) : directFactor cp p ≤ 1 := by
  unfold directFactor
  have h : (1 : ℝ) - (dist3 p cp.position / cp.influenceRadius) ^ 2 ≤ 1 := by
    have := sq_nonneg (dist3 p cp.position / cp.influenceRadius)
    linarith
  exact max_le (by norm_num) h

lemma crossFactor_nonneg (m : ℝ) (cp o : ControlPoint ℝ) (p : Vec3 ℝ) :
    0 ≤ crossFactor m cp o p := by
  unfold crossFactor
  by_cases h : 1 < dist3 o.position cp.position / (m * (3 / 10))
  · rw [if_pos h]
  · rw [if_neg h]
    have h1 : (0 : ℝ) ≤ max 0 (1 - (dist3 o.position cp.position / (m * (3 / 10))) ^ 2) :=
      le_max_left 0 _
    have h2 : (0 : ℝ) ≤ max 0 (1 - dist3 p o.position / o.influenceRadius) :=
      le_max_left 0 _
    positivity

lemma crossFactor_le (m : ℝ) (cp o : ControlPoint ℝ) (p : Vec3 ℝ)
    (hR : 0 < o.influenceRadius) : crossFactor m cp o p ≤ 7 / 10 := by
  unfold crossFactor
  by_cases h : 1 < dist3 o.position cp.position / (m * (3 / 10))
  · rw [if_pos h]; norm_num
  · rw [if_neg h]
    have h1 : max 0 (1 - (dist3 o.position cp.position / (m * (3 / 10))) ^ 2) ≤ 1 := by
      have := sq_nonneg (dist3 o.position cp.position / (m * (3 / 10)))
      exact max_le (by norm_num) (by linarith)
    have h2 : max 0 (1 - dist3 p o.position / o.influenceRadius) ≤ 1 := by
      have hq : 0 ≤ dist3 p o.position / o.influenceRadius :=
        div_nonneg (dist3_nonneg _ _) (le_of_lt hR)
      exact max_le (by norm_num) (by linarith)
    have h1n : 0 ≤ max 0 (1 - (dist3 o.position cp.position / (m * (3 / 10))) ^ 2) :=
      le_max_left 0 _
    have h2n : 0 ≤ max 0 (1 - dist3 p o.position / o.influenceRadius) :=
      le_max_left 0 _
    calc max 0 (1 - (dist3 o.position cp.position / (m * (3 / 10))) ^ 2) *
          max 0 (1 - dist3 p o.position / o.influenceRadius) * (7 / 10)
        ≤ 1 * 1 * (7 / 10) := by
          apply mul_le_mul_of_nonneg_right _ (by norm_num)
          exact mul_le_mul h1 h2 h2n (by norm_num)
      _ = 7 / 10 := by norm_num

lemma applyDirect_length (cp : ControlPoint ℝ) (mv : Vec3 ℝ) (ps : List (Vec3 ℝ)) :
    (applyDirect cp mv ps).length = ps.length := by
  unfold applyDirect
  simp

lemma applyDirect_getD (cp : ControlPoint ℝ) (mv : Vec3 ℝ) (ps : List (Vec3 ℝ)) (i : Nat)
    (hi : i < ps.length) :
    (applyDirect cp mv ps).getD i ⟨0, 0, 0⟩ =
      if i ∈ cp.vertexIndices then
        (ps.getD i ⟨0, 0, 0⟩).add (Vec3.smul (directFactor cp (ps.getD i ⟨0, 0, 0⟩)) mv)
      else ps.getD i ⟨0, 0, 0⟩ := by
  unfold applyDirect
  rw [getD_range_map]
  rw [if_pos hi]

lemma applyDirect_getD_factor (cp : ControlPoint ℝ) (mv : Vec3 ℝ) (ps : List (Vec3 ℝ))
    (i : Nat) (hi : i < ps.length) :
    ∃ f, 0 ≤ f ∧ f ≤ 1 ∧
      (applyDirect cp mv ps).getD i ⟨0, 0, 0⟩ = (ps.getD i ⟨0, 0, 0⟩).add (Vec3.smul f mv) ∧
      (i ∉ cp.vertexIndices → f = 0) := by
  rw [applyDirect_getD cp mv ps i hi]
  by_cases h : i ∈ cp.vertexIndices
  · exact ⟨directFactor cp (ps.getD i ⟨0, 0, 0⟩), directFactor_nonneg _ _,
      directFactor_le_one _ _, by rw [if_pos h], fun hc => absurd h hc⟩
  · refine ⟨0, le_refl 0, by norm_num, ?_, fun _ => rfl⟩
    rw [if_neg h, Vec3.smul_zero3, Vec3.add_zero3]

lemma applyCross_length (m : ℝ) (cp : ControlPoint ℝ) (others : List (ControlPoint ℝ))
    (mv : Vec3 ℝ) : ∀ qs : List (Vec3 ℝ), (applyCross m cp others mv qs).length = qs.length := by
  induction others with
  | nil => intro qs; rfl
  | cons o os ih =>
    intro qs
    unfold applyCross
    rw [List.foldl_cons]
    have h := ih ((List.range qs.length).map fun i =>
      let p := qs.getD i ⟨0, 0, 0⟩
      if i ∈ o.vertexIndices then p.add (Vec3.smul (crossFactor m cp o p) mv) else p)
    unfold applyCross at h
    rw [h]
    simp

lemma applyCross_getD_untouched (m : ℝ) (cp : ControlPoint ℝ)
    (others : List (ControlPoint ℝ)) (mv : Vec3 ℝ) :
    ∀ qs : List (Vec3 ℝ), ∀ i, i < qs.length → (∀ o ∈ others, i ∉ o.vertexIndices) →
      (applyCross m cp others mv qs).getD i ⟨0, 0, 0⟩ = qs.getD i ⟨0, 0, 0⟩ := by
  induction others with
  | nil => intro qs i _ _; rfl
  | cons o os ih =>
    intro qs i hi hmem
    unfold applyCross
    rw [List.foldl_cons]
    set qs2 := (List.range qs.length).map fun j =>
      let p := qs.getD j ⟨0, 0, 0⟩
      if j ∈ o.vertexIndices then p.add (Vec3.smul (crossFactor m cp o p) mv) else p with hqs2
    have hlen : qs2.length = qs.length := by rw [hqs2]; simp
    have hstep : qs2.getD i ⟨0, 0, 0⟩ = qs.getD i ⟨0, 0, 0⟩ := by
      rw [hqs2, getD_range_map, if_pos hi, if_neg (hmem o (List.mem_cons_self o os))]
    have := ih qs2 i (by rw [hlen]; exact hi)
      (fun o' ho' => hmem o' (List.mem_cons_of_mem o ho'))
    unfold applyCross at this
    rw [this, hstep]

lemma applyCross_getD_factor (m : ℝ) (cp : ControlPoint ℝ) (mv : Vec3 ℝ)
    (others : List (ControlPoint ℝ))
    (hpair : List.Pairwise (fun a b => ∀ i, i ∈ a.vertexIndices → i ∉ b.vertexIndices) others)
    (hR : ∀ o ∈ others, 0 < o.influenceRadius) :
    ∀ qs : List (Vec3 ℝ), ∀ i, i < qs.length →
      ∃ f, 0 ≤ f ∧ f ≤ 7 / 10 ∧
        (applyCross m cp others mv qs).getD i ⟨0, 0, 0⟩
          = (qs.getD i ⟨0, 0, 0⟩).add (Vec3.smul f mv) ∧
        ((∀ o ∈ others, i ∉ o.vertexIndices) → f = 0) := by
  induction others with
  | nil =>
    intro qs i _
    refine ⟨0, le_refl 0, by norm_num, ?_, fun _ => rfl⟩
    rw [Vec3.smul_zero3, Vec3.add_zero3]
    rfl
  | cons o os ih =>
    intro qs i hi
    unfold applyCross
    rw [List.foldl_cons]
    set qs2 := (List.range qs.length).map fun j =>
      let p := qs.getD j ⟨0, 0, 0⟩
      if j ∈ o.vertexIndices then p.add (Vec3.smul (crossFactor m cp o p) mv) else p with hqs2
    have hlen : qs2.length = qs.length := by rw [hqs2]; simp
    by_cases hmem : i ∈ o.vertexIndices
    · have hstep : qs2.getD i ⟨0, 0, 0⟩ =
          (qs.getD i ⟨0, 0, 0⟩).add
            (Vec3.smul (crossFactor m cp o (qs.getD i ⟨0, 0, 0⟩)) mv) := by
        rw [hqs2, getD_range_map, if_pos hi, if_pos hmem]
      have hrest : ∀ o' ∈ os, i ∉ o'.vertexIndices := by
        intro o' ho'
        exact (List.pairwise_cons.mp hpair).1 o' ho' i hmem
      have huntouched := applyCross_getD_untouched m cp os mv qs2 i
        (by rw [hlen]; exact hi) hrest
      unfold applyCross at huntouched
      refine ⟨crossFactor m cp o (qs.getD i ⟨0, 0, 0⟩), crossFactor_nonneg _ _ _ _,
        crossFactor_le _ _ _ _ (hR o (List.mem_cons_self o os)), ?_, ?_⟩
      · rw [huntouched, hstep]
      · intro hall
        exact absurd hmem (hall o (List.mem_cons_self o os))
    · have hstep : qs2.getD i ⟨0, 0, 0⟩ = qs.getD i ⟨0, 0, 0⟩ := by
        rw [hqs2, getD_range_map, if_pos hi, if_neg hmem]
      obtain ⟨f, hf0, hf7, heq, hze⟩ := ih (List.pairwise_cons.mp hpair).2
        (fun o' ho' => hR o' (List.mem_cons_of_mem o ho')) qs2 i (by rw [hlen]; exact hi)
      refine ⟨f, hf0, hf7, ?_, ?_⟩
      · unfold applyCross at heq
        rw [heq, hstep]
      · intro hall
        exact hze fun o' ho' => hall o' (List.mem_cons_of_mem o ho')

lemma applyCross_getD_owner (m : ℝ) (cp : ControlPoint ℝ) (mv : Vec3 ℝ)
    (others : List (ControlPoint ℝ))
    (hpair : List.Pairwise (fun a b => ∀ i, i ∈ a.vertexIndices → i ∉ b.vertexIndices) others)
    (o : ControlPoint ℝ) (ho : o ∈ others) :
    ∀ qs : List (Vec3 ℝ), ∀ i, i < qs.length → i ∈ o.vertexIndices →
      (applyCross m cp others mv qs).getD i ⟨0, 0, 0⟩
        = (qs.getD i ⟨0, 0, 0⟩).add
            (Vec3.smul (crossFactor m cp o (qs.getD i ⟨0, 0, 0⟩)) mv) := by
  induction others with
  | nil => exact absurd ho (List.not_mem_nil o)
  | cons o' os ih =>
    intro qs i hi hio
    unfold applyCross
    rw [List.foldl_cons]
    set qs2 := (List.range qs.length).map fun j =>
      let p := qs.getD j ⟨0, 0, 0⟩
      if j ∈ o'.vertexIndices then p.add (Vec3.smul (crossFactor m cp o' p) mv) else p
      with hqs2
    have hlen : qs2.length = qs.length := by rw [hqs2]; simp
    rcases List.mem_cons.mp ho with hh | hh
    · subst hh
      have hstep : qs2.getD i ⟨0, 0, 0⟩ =
          (qs.getD i ⟨0, 0, 0⟩).add
            (Vec3.smul (crossFactor m cp o (qs.getD i ⟨0, 0, 0⟩)) mv) := by
        rw [hqs2, getD_range_map, if_pos hi, if_pos hio]
      have hrest : ∀ o'' ∈ os, i ∉ o''.vertexIndices := by
        intro o'' ho''
        exact (List.pairwise_cons.mp hpair).1 o'' ho'' i hio
      have huntouched := applyCross_getD_untouched m cp os mv qs2 i
        (by rw [hlen]; exact hi) hrest
      unfold applyCross at huntouched
      rw [huntouched, hstep]
    · have hnot : i ∉ o'.vertexIndices := by
        intro hc
        exact (List.pairwise_cons.mp hpair).1 o hh i hc hio
      have hstep : qs2.getD i ⟨0, 0, 0⟩ = qs.getD i ⟨0, 0, 0⟩ := by
        rw [hqs2, getD_range_map, if_pos hi, if_neg hnot]
      have := ih (List.pairwise_cons.mp hpair).2 hh qs2 i (by rw [hlen]; exact hi) hio
      unfold applyCross at this
      rw [this, hstep]

lemma norm3_clampMove_le (r : ℝ) (v : Vec3 ℝ) (hr : 0 ≤ r) :
    norm3 (clampMove r v) ≤ r * (1 / 10) := by
  unfold clampMove
  by_cases h : r * (1 / 10) < norm3 v
  · rw [if_pos h, norm3_smul]
    have hv : (0 : ℝ) < norm3 v := lt_of_le_of_lt (by positivity) h
    have hc : 0 ≤ r * (1 / 10) / norm3 v := by positivity
    rw [abs_of_nonneg hc, div_mul_cancel₀ _ (ne_of_gt hv)]
  · rw [if_neg h]
    exact le_of_not_lt h

lemma updateInfluencedVertices_length (cps : List (ControlPoint ℝ)) (cp : ControlPoint ℝ)
    (mv : Vec3 ℝ) (ps : List (Vec3 ℝ)) :
    (updateInfluencedVertices cps cp mv ps).length = ps.length := by
  unfold updateInfluencedVertices
  rw [applyCross_length, applyDirect_length]

/-- The core single-call bound: with pairwise-disjoint ownership and
positive influence radii, every vertex of the mesh is displaced by at
most `|moveVector|` in one `updateInfluencedVertices` call (the direct
weight is at most 1, every cross-region weight at most `0.7`, and each
vertex receives at most one of the two contributions). -/
lemma updateInfluencedVertices_displacement (cps : List (ControlPoint ℝ))
    (cp : ControlPoint ℝ) (mv : Vec3 ℝ) (ps : List (Vec3 ℝ))
    (hpair : OwnersDisjoint cps)
    (hcp : ∀ o ∈ cps, o ≠ cp → ∀ i ∈ cp.vertexIndices, i ∉ o.vertexIndices)
    (hR : ∀ o ∈ cps, 0 < o.influenceRadius)
    (i : Nat) (hi : i < ps.length) :
    dist3 ((updateInfluencedVertices cps cp mv ps).getD i ⟨0, 0, 0⟩) (ps.getD i ⟨0, 0, 0⟩)
      ≤ norm3 mv := by
  unfold updateInfluencedVertices
  set others := cps.filter fun o => @decide (¬o = cp) (Classical.propDecidable _) with hoth
  have hsub : others.Sublist cps := List.filter_sublist cps
  have hpair2 : List.Pairwise
      (fun a b => ∀ j, j ∈ a.vertexIndices → j ∉ b.vertexIndices) others :=
    List.Pairwise.sublist hsub hpair
  have hR2 : ∀ o ∈ others, 0 < o.influenceRadius := fun o ho =>
    hR o (List.Sublist.mem ho hsub)
  obtain ⟨f1, hf10, hf11, heq1, hz1⟩ := applyDirect_getD_factor cp mv ps i hi
  have hi2 : i < (applyDirect cp mv ps).length := by
    rw [applyDirect_length]; exact hi
  obtain ⟨f2, hf20, hf27, heq2, hz2⟩ :=
    applyCross_getD_factor (maxExtent (boxSize ps)) cp mv others hpair2 hR2
      (applyDirect cp mv ps) i hi2
  rw [heq2, heq1, Vec3.add_add3, Vec3.smul_add_smul, dist3_add_smul]
  have hsum1 : f1 + f2 ≤ 1 := by
    by_cases hmem : i ∈ cp.vertexIndices
    · have hz : f2 = 0 := by
        apply hz2
        intro o ho
        have ho' := List.mem_filter.mp (hoth ▸ ho)
        have hne : o ≠ cp := by simpa using ho'.2
        exact hcp o ho'.1 hne i hmem
      rw [hz, add_zero]; exact hf11
    · have hz : f1 = 0 := hz1 hmem
      rw [hz, zero_add]; linarith
  have habs : |f1 + f2| = f1 + f2 := abs_of_nonneg (by linarith)
  rw [habs]
  exact mul_le_of_le_one_left (norm3_nonneg mv) hsum1

/-- The drag-move displacement bound shared by the C2 and C10
theorems: with the classifier invariants, one `handleMouseMove` step
moves no vertex farther than the clamp bound. -/
lemma handleMouseMove_displacement_le (r : ℝ) (cps : List (ControlPoint ℝ))
    (sel : ControlPoint ℝ) (target : Vec3 ℝ) (ps : List (Vec3 ℝ))
    (hr : 0 ≤ r)
    (hpair : OwnersDisjoint cps)
    (hsel : ∀ o ∈ cps, o ≠ sel → ∀ i ∈ sel.vertexIndices, i ∉ o.vertexIndices)
    (hR : ∀ o ∈ cps, 0 < o.influenceRadius) :
    ∀ i, i < ps.length →
      dist3 ((handleMouseMove r cps sel target ps).2.2.getD i ⟨0, 0, 0⟩)
          (ps.getD i ⟨0, 0, 0⟩)
        ≤ r * (1 / 10) := by
  have hclamp := norm3_clampMove_le r (target.sub sel.position) hr
  intro i hi
  show dist3 ((updateInfluencedVertices
      (cps.map fun o => @ite _ (o = sel) (Classical.propDecidable _)
        { sel with position := target } o)
      { sel with position := target }
      (clampMove r (target.sub sel.position)) ps).getD i ⟨0, 0, 0⟩)
      (ps.getD i ⟨0, 0, 0⟩) ≤ r * (1 / 10)
  set sel2 : ControlPoint ℝ := { sel with position := target } with hsel2
  set cps2 := cps.map fun o => @ite _ (o = sel) (Classical.propDecidable _) sel2 o with hcps2
  have hindices : ∀ o : ControlPoint ℝ,
      (@ite _ (o = sel) (Classical.propDecidable _) sel2 o).vertexIndices
        = o.vertexIndices := by
    intro o
    by_cases h : o = sel
    · rw [if_pos h, h]
    · rw [if_neg h]
  have hpair2 : OwnersDisjoint cps2 := by
    rw [hcps2]
    refine List.Pairwise.map _ ?_ hpair
    intro a b hab j hj
    rw [hindices a] at hj
    rw [hindices b]
    exact hab j hj
  have hR2 : ∀ o ∈ cps2, 0 < o.influenceRadius := by
    intro o ho
    rw [hcps2] at ho
    obtain ⟨a, ha, rfl⟩ := List.mem_map.mp ho
    by_cases h : a = sel
    · rw [if_pos h]
      exact hR sel (h ▸ ha)
    · rw [if_neg h]
      exact hR a ha
  have hcp2 : ∀ o ∈ cps2, o ≠ sel2 → ∀ j ∈ sel2.vertexIndices, j ∉ o.vertexIndices := by
    intro o ho hne j hj
    rw [hcps2] at ho
    obtain ⟨a, ha, rfl⟩ := List.mem_map.mp ho
    by_cases h : a = sel
    · exact absurd (if_pos h) hne
    · rw [if_neg h] at hne ⊢
      exact hsel a ha h j hj
  calc dist3 ((updateInfluencedVertices cps2 sel2
        (clampMove r (target.sub sel.position)) ps).getD i ⟨0, 0, 0⟩)
        (ps.getD i ⟨0, 0, 0⟩)
      ≤ norm3 (clampMove r (target.sub sel.position)) :=
        updateInfluencedVertices_displacement cps2 sel2 _ ps hpair2 hcp2 hR2 i hi
    _ ≤ r * (1 / 10) := hclamp

/-- C2: in a drag-move step the move vector handed to
`updateInfluencedVertices` is clamped to at most 10% of the
bounding-sphere radius, and consequently, under the classifier
invariants (each vertex owned by at most one control point, every
influence radius positive), no vertex of the mesh moves by more than
that clamp bound in the single deformation call. -/
theorem C2_single_step_displacement_bound (r : ℝ) (cps : List (ControlPoint ℝ))
    (sel : ControlPoint ℝ) (target : Vec3 ℝ) (ps : List (Vec3 ℝ))
    (hr : 0 ≤ r)
    (hpair : OwnersDisjoint cps)
    (hsel : ∀ o ∈ cps, o ≠ sel → ∀ i ∈ sel.vertexIndices, i ∉ o.vertexIndices)
    (hR : ∀ o ∈ cps, 0 < o.influenceRadius) :
    norm3 (clampMove r (target.sub sel.position)) ≤ r * (1 / 10) ∧
    ∀ i, i < ps.length →
      dist3 ((handleMouseMove r cps sel target ps).2.2.getD i ⟨0, 0, 0⟩)
          (ps.getD i ⟨0, 0, 0⟩)
        ≤ r * (1 / 10) :=
  ⟨norm3_clampMove_le r (target.sub sel.position) hr,
    handleMouseMove_displacement_le r cps sel target ps hr hpair hsel hR⟩

/-- C3: for a fixed control point and displacement, among the owned
vertices the direct pass displaces a strictly closer vertex at least as
much as a strictly farther one; an owned vertex is displaced by
exactly `moveVector * max(0, 1 - (d/influenceRadius)^2)`; and an owned
vertex at distance at least `influenceRadius` is left exactly in
place. -/
theorem C3_direct_falloff_monotone (cp : ControlPoint ℝ) (mv : Vec3 ℝ)
    (ps : List (Vec3 ℝ)) (hR : 0 < cp.influenceRadius) (i j : Nat)
    (hi : i < ps.length) (hj : j < ps.length)
    (hio : i ∈ cp.vertexIndices) (hjo : j ∈ cp.vertexIndices)
    (hcloser : dist3 (ps.getD i ⟨0, 0, 0⟩) cp.position
      < dist3 (ps.getD j ⟨0, 0, 0⟩) cp.position) :
    dist3 ((applyDirect cp mv ps).getD j ⟨0, 0, 0⟩) (ps.getD j ⟨0, 0, 0⟩)
      ≤ dist3 ((applyDirect cp mv ps).getD i ⟨0, 0, 0⟩) (ps.getD i ⟨0, 0, 0⟩) ∧
    (∀ k, k < ps.length → k ∈ cp.vertexIndices →
      (applyDirect cp mv ps).getD k ⟨0, 0, 0⟩
        = (ps.getD k ⟨0, 0, 0⟩).add
            (Vec3.smul
              (max 0 (1 -
                (dist3 (ps.getD k ⟨0, 0, 0⟩) cp.position / cp.influenceRadius) ^ 2)) mv)) ∧
    ∀ k, k < ps.length → k ∈ cp.vertexIndices →
      cp.influenceRadius ≤ dist3 (ps.getD k ⟨0, 0, 0⟩) cp.position →
      (applyDirect cp mv ps).getD k ⟨0, 0, 0⟩ = ps.getD k ⟨0, 0, 0⟩ := by
  have hdisp : ∀ k, k < ps.length → k ∈ cp.vertexIndices →
      dist3 ((applyDirect cp mv ps).getD k ⟨0, 0, 0⟩) (ps.getD k ⟨0, 0, 0⟩)
        = directFactor cp (ps.getD k ⟨0, 0, 0⟩) * norm3 mv := by
    intro k hk hko
    rw [applyDirect_getD cp mv ps k hk, if_pos hko, dist3_add_smul,
      abs_of_nonneg (directFactor_nonneg cp _)]
  refine ⟨?_, ?_, ?_⟩
  · rw [hdisp i hi hio, hdisp j hj hjo]
    have hfac : directFactor cp (ps.getD j ⟨0, 0, 0⟩)
        ≤ directFactor cp (ps.getD i ⟨0, 0, 0⟩) := by
      unfold directFactor
      apply max_le_max (le_refl 0)
      have hij : (dist3 (ps.getD i ⟨0, 0, 0⟩) cp.position / cp.influenceRadius) ^ 2
          ≤ (dist3 (ps.getD j ⟨0, 0, 0⟩) cp.position / cp.influenceRadius) ^ 2 := by
        apply pow_le_pow_left₀
        · exact div_nonneg (dist3_nonneg _ _) (le_of_lt hR)
        · exact (div_le_div_right hR).mpr (le_of_lt hcloser)
      linarith
    exact mul_le_mul_of_nonneg_right hfac (norm3_nonneg mv)
  · intro k hk hko
    rw [applyDirect_getD cp mv ps k hk, if_pos hko]
    rfl
  · intro k hk hko hfar
    rw [applyDirect_getD cp mv ps k hk, if_pos hko]
    have hfac : directFactor cp (ps.getD k ⟨0, 0, 0⟩) = 0 := by
      unfold directFactor
      have h1 : (1 : ℝ) ≤ dist3 (ps.getD k ⟨0, 0, 0⟩) cp.position / cp.influenceRadius :=
        (one_le_div hR).mpr hfar
      have h2 : (1 : ℝ) ≤ (dist3 (ps.getD k ⟨0, 0, 0⟩) cp.position / cp.influenceRadius) ^ 2 := by
        nlinarith [h1]
      exact max_eq_left (by linarith)
    rw [hfac, Vec3.smul_zero3, Vec3.add_zero3]

/-- C10: the drag-move step sets the selected control point's stored
position (which the proxy sphere copies) to the full, unclamped
plane-intersection target; when the raw pointer displacement exceeds
the 10% clamp, the handle therefore moves strictly farther in the step
than any vertex of the mesh — in particular than any of its owned
vertices — so its position diverges from its deformed region. -/
theorem C10_handle_outruns_vertices (r : ℝ) (cps : List (ControlPoint ℝ))
    (sel : ControlPoint ℝ) (target : Vec3 ℝ) (ps : List (Vec3 ℝ))
    (hr : 0 ≤ r)
    (hraw : r * (1 / 10) < dist3 target sel.position)
    (hpair : OwnersDisjoint cps)
    (hsel : ∀ o ∈ cps, o ≠ sel → ∀ i ∈ sel.vertexIndices, i ∉ o.vertexIndices)
    (hR : ∀ o ∈ cps, 0 < o.influenceRadius) :
    (handleMouseMove r cps sel target ps).1.position = target ∧
    ∀ i, i < ps.length →
      dist3 ((handleMouseMove r cps sel target ps).2.2.getD i ⟨0, 0, 0⟩)
          (ps.getD i ⟨0, 0, 0⟩)
        < dist3 target sel.position := by
  refine ⟨rfl, ?_⟩
  intro i hi
  have hb := handleMouseMove_displacement_le r cps sel target ps hr hpair hsel hR i hi
  exact lt_of_le_of_lt hb hraw

lemma meshFixture_box : boxCenter meshFixture = ⟨50, 50, 50⟩ ∧
    boxSize meshFixture = ⟨100, 100, 100⟩ := by
  constructor
  · norm_num [meshFixture, boxCenter, boxMin, boxMax, Vec3.add, Vec3.smul]
  · norm_num [meshFixture, boxSize, boxMin, boxMax, Vec3.sub]

lemma meshFixture_tip : findNoseTip meshFixture ⟨50, 50, 50⟩ ⟨100, 100, 100⟩ = ⟨50, 58, 95⟩ := by
  norm_num [meshFixture, findNoseTip, tipFold, tipStep, strictTipWindow, normCoord]

set_option maxHeartbeats 1000000 in
lemma meshFixture_cps : initialControlPoints (⟨50, 58, 95⟩ : Vec3 ℚ) ⟨100, 100, 100⟩
    (min (min (100 : ℚ) 100) 100 * (4 / 100))
    = [ ⟨⟨50, 73, 83⟩, .bridge, 16, []⟩, ⟨⟨50, 58, 95⟩, .tip, 10, []⟩,
        ⟨⟨38, 48, 87⟩, .leftNostril, 10, []⟩, ⟨⟨62, 48, 87⟩, .rightNostril, 10, []⟩,
        ⟨⟨35, 66, 85⟩, .leftSidewall, 14, []⟩, ⟨⟨65, 66, 85⟩, .rightSidewall, 14, []⟩,
        ⟨⟨50, 50, 89⟩, .columella, 10, []⟩ ] := by
  norm_num [initialControlPoints, createControlPoint, influenceRadiusFor]

set_option maxHeartbeats 1000000 in
lemma assignFixture0 : assignVertex
    [ (⟨⟨50, 73, 83⟩, .bridge, 16, []⟩ : ControlPoint ℚ), ⟨⟨50, 58, 95⟩, .tip, 10, []⟩,
      ⟨⟨38, 48, 87⟩, .leftNostril, 10, []⟩, ⟨⟨62, 48, 87⟩, .rightNostril, 10, []⟩,
      ⟨⟨35, 66, 85⟩, .leftSidewall, 14, []⟩, ⟨⟨65, 66, 85⟩, .rightSidewall, 14, []⟩,
      ⟨⟨50, 50, 89⟩, .columella, 10, []⟩ ]
    ⟨50, 50, 50⟩ ⟨100, 100, 100⟩ ⟨50, 58, 95⟩ (⟨0, 0, 0⟩ : Vec3 ℚ) = none := by
  norm_num [assignVertex, nearestCP, nearestStep, applyOverrides, findRegion,
    distSq, Vec3.sub, Vec3.normSq, normCoord, maxExtent]

set_option maxHeartbeats 1000000 in
lemma assignFixture1 : assignVertex
    [ (⟨⟨50, 73, 83⟩, .bridge, 16, []⟩ : ControlPoint ℚ), ⟨⟨50, 58, 95⟩, .tip, 10, []⟩,
      ⟨⟨38, 48, 87⟩, .leftNostril, 10, []⟩, ⟨⟨62, 48, 87⟩, .rightNostril, 10, []⟩,
      ⟨⟨35, 66, 85⟩, .leftSidewall, 14, []⟩, ⟨⟨65, 66, 85⟩, .rightSidewall, 14, []⟩,
      ⟨⟨50, 50, 89⟩, .columella, 10, []⟩ ]
    ⟨50, 50, 50⟩ ⟨100, 100, 100⟩ ⟨50, 58, 95⟩ (⟨100, 100, 100⟩ : Vec3 ℚ) = none := by
  norm_num [assignVertex, nearestCP, nearestStep, applyOverrides, findRegion,
    distSq, Vec3.sub, Vec3.normSq, normCoord, maxExtent]

set_option maxHeartbeats 1000000 in
lemma assignFixture2 : assignVertex
    [ (⟨⟨50, 73, 83⟩, .bridge, 16, []⟩ : ControlPoint ℚ), ⟨⟨50, 58, 95⟩, .tip, 10, []⟩,
      ⟨⟨38, 48, 87⟩, .leftNostril, 10, []⟩, ⟨⟨62, 48, 87⟩, .rightNostril, 10, []⟩,
      ⟨⟨35, 66, 85⟩, .leftSidewall, 14, []⟩, ⟨⟨65, 66, 85⟩, .rightSidewall, 14, []⟩,
      ⟨⟨50, 50, 89⟩, .columella, 10, []⟩ ]
    ⟨50, 50, 50⟩ ⟨100, 100, 100⟩ ⟨50, 58, 95⟩ (⟨50, 58, 95⟩ : Vec3 ℚ) = some .bridge := by
  norm_num [assignVertex, nearestCP, nearestStep, applyOverrides, findRegion,
    distSq, Vec3.sub, Vec3.normSq, normCoord, maxExtent]

set_option maxHeartbeats 1000000 in
lemma assignFixture3 : assignVertex
    [ (⟨⟨50, 73, 83⟩, .bridge, 16, []⟩ : ControlPoint ℚ), ⟨⟨50, 58, 95⟩, .tip, 10, []⟩,
      ⟨⟨38, 48, 87⟩, .leftNostril, 10, []⟩, ⟨⟨62, 48, 87⟩, .rightNostril, 10, []⟩,
      ⟨⟨35, 66, 85⟩, .leftSidewall, 14, []⟩, ⟨⟨65, 66, 85⟩, .rightSidewall, 14, []⟩,
      ⟨⟨50, 50, 89⟩, .columella, 10, []⟩ ]
    ⟨50, 50, 50⟩ ⟨100, 100, 100⟩ ⟨50, 58, 95⟩ (⟨50, 62, 100⟩ : Vec3 ℚ) = some .bridge := by
  norm_num [assignVertex, nearestCP, nearestStep, applyOverrides, findRegion,
    distSq, Vec3.sub, Vec3.normSq, normCoord, maxExtent]

set_option maxHeartbeats 1000000 in
lemma meshFixture_result : (createAnatomicalControlMesh meshFixture).2
    = [ ⟨⟨50, 73, 83⟩, .bridge, 16, [2, 3]⟩, ⟨⟨50, 58, 95⟩, .tip, 10, []⟩,
        ⟨⟨38, 48, 87⟩, .leftNostril, 10, []⟩, ⟨⟨62, 48, 87⟩, .rightNostril, 10, []⟩,
        ⟨⟨35, 66, 85⟩, .leftSidewall, 14, []⟩, ⟨⟨65, 66, 85⟩, .rightSidewall, 14, []⟩,
        ⟨⟨50, 50, 89⟩, .columella, 10, []⟩ ] := by
  have hb := meshFixture_box
  simp only [createAnatomicalControlMesh, hb.1, hb.2, meshFixture_tip, meshFixture_cps]
  simp only [show meshFixture.length = 4 from rfl, show List.range 4 = [0, 1, 2, 3] from rfl]
  simp only [show meshFixture.getD 0 ⟨0, 0, 0⟩ = ⟨0, 0, 0⟩ from rfl,
    show meshFixture.getD 1 ⟨0, 0, 0⟩ = ⟨100, 100, 100⟩ from rfl,
    show meshFixture.getD 2 ⟨0, 0, 0⟩ = ⟨50, 58, 95⟩ from rfl,
    show meshFixture.getD 3 ⟨0, 0, 0⟩ = ⟨50, 62, 100⟩ from rfl,
    List.map, List.filter, assignFixture0, assignFixture1, assignFixture2, assignFixture3]
  norm_num
  decide

/-- C4: the tip-anchor search has exactly three ordered cases: the
max-Z vertex of the strict central-frontal window; if that window holds
no vertex, the max-Z vertex of the relaxed window; and if that window
is also empty, the synthesized front-center of the bounding box.  The
three disjuncts are mutually exclusive and each fallback's guard
asserts that the previous window was empty. -/
theorem C4_tip_anchor_three_cases {K : Type} [LinearOrderedField K] (vs : List (Vec3 K)) :
    ((∃ v ∈ vs, strictTipWindow (boxCenter vs) (boxSize vs) v = true) ∧
      findNoseTip vs (boxCenter vs) (boxSize vs) ∈ vs ∧
      strictTipWindow (boxCenter vs) (boxSize vs)
        (findNoseTip vs (boxCenter vs) (boxSize vs)) = true ∧
      ∀ v ∈ vs, strictTipWindow (boxCenter vs) (boxSize vs) v = true →
        v.z ≤ (findNoseTip vs (boxCenter vs) (boxSize vs)).z) ∨
    ((∀ v ∈ vs, strictTipWindow (boxCenter vs) (boxSize vs) v = false) ∧
      (∃ v ∈ vs, relaxedTipWindow (boxCenter vs) (boxSize vs) v = true) ∧
      findNoseTip vs (boxCenter vs) (boxSize vs) ∈ vs ∧
      relaxedTipWindow (boxCenter vs) (boxSize vs)
        (findNoseTip vs (boxCenter vs) (boxSize vs)) = true ∧
      ∀ v ∈ vs, relaxedTipWindow (boxCenter vs) (boxSize vs) v = true →
        v.z ≤ (findNoseTip vs (boxCenter vs) (boxSize vs)).z) ∨
    ((∀ v ∈ vs, strictTipWindow (boxCenter vs) (boxSize vs) v = false) ∧
      (∀ v ∈ vs, relaxedTipWindow (boxCenter vs) (boxSize vs) v = false) ∧
      findNoseTip vs (boxCenter vs) (boxSize vs) =
        ⟨(boxCenter vs).x, (boxCenter vs).y,
          (boxCenter vs).z + (boxSize vs).z / 2⟩) := by
  cases h1 : tipFold (strictTipWindow (boxCenter vs) (boxSize vs)) vs with
  | some p =>
    have hsp := tipFold_spec _ _ _ h1
    have ht : findNoseTip vs (boxCenter vs) (boxSize vs) = p := by
      simp only [findNoseTip, h1]
    rw [ht]
    exact Or.inl ⟨⟨p, hsp.1, hsp.2.1⟩, hsp.1, hsp.2.1, hsp.2.2⟩
  | none =>
    have hstrict := (tipFold_eq_none_iff _ _).mp h1
    cases h2 : tipFold (relaxedTipWindow (boxCenter vs) (boxSize vs)) vs with
    | some p =>
      have hsp := tipFold_spec _ _ _ h2
      have ht : findNoseTip vs (boxCenter vs) (boxSize vs) = p := by
        simp only [findNoseTip, h1, h2]
      rw [ht]
      exact Or.inr (Or.inl ⟨hstrict, ⟨p, hsp.1, hsp.2.1⟩, hsp.1, hsp.2.1, hsp.2.2⟩)
    | none =>
      refine Or.inr (Or.inr ⟨hstrict, (tipFold_eq_none_iff _ _).mp h2, ?_⟩)
      simp only [findNoseTip, h1, h2]

/-- Inversion of `assignVertex`: a vertex assigned to some region must
have passed the front-of-face filter, and the distance to its
*nearest-by-distance* control point (the pre-override `minDistance`)
must beat the `0.2 · maxModelExtent` threshold. -/
lemma assignVertex_some_inv {K : Type} [LinearOrderedField K] (cps : List (ControlPoint K))
    (center size tip v : Vec3 K) (r : NoseRegion)
    (h : assignVertex cps center size tip v = some r) :
    ¬(normCoord center.z size.z v.z < 1 / 2 ∧
        (3 / 10 * maxExtent size) ^ 2 < distSq v tip) ∧
    ∃ c0 ∈ cps, (∀ c ∈ cps, distSq v c0.position ≤ distSq v c.position) ∧
      distSq v c0.position < (2 / 10 * maxExtent size) ^ 2 := by
  simp only [assignVertex] at h
  by_cases hP : (normCoord center.z size.z v.z < 1 / 2 ∧
      (3 / 10 * maxExtent size) ^ 2 < distSq v tip)
  · rw [if_pos hP] at h
    exact absurd h (by simp)
  · rw [if_neg hP] at h
    refine ⟨hP, ?_⟩
    cases hn : nearestCP cps v with
    | none =>
      rw [hn] at h
      exact absurd h (by simp)
    | some pr =>
      rw [hn] at h
      simp only [] at h
      by_cases hT : pr.2 < (2 / 10 * maxExtent size) ^ 2
      · have hspec := nearestCP_spec v cps pr hn
        refine ⟨pr.1, hspec.1, ?_, ?_⟩
        · intro c hc
          rw [← hspec.2.1]
          exact hspec.2.2 c hc
        · rw [← hspec.2.1]
          exact hT
      · rw [if_neg hT] at h
        exact absurd h (by simp)

/-- C5 (amended): a vertex that survives to a region's owned set passed
the front-of-face filter and lies within `0.2 · maxModelExtent` of its
*nearest-by-distance* control point — the `minDistance` computed before
the rectangular-window overrides.  (The claim as frozen asserts the
test against the post-override assigned control point; the code never
recomputes `minDistance` after an override, see `C5_counterexample`.) -/
theorem C5_kept_vertices_near_nearest {K : Type} [LinearOrderedField K]
    (vs : List (Vec3 K)) (cp : ControlPoint K)
    (hcp : cp ∈ (createAnatomicalControlMesh vs).2) (i : Nat)
    (hi : i ∈ cp.vertexIndices) :
    i < vs.length ∧
    ¬(normCoord (boxCenter vs).z (boxSize vs).z (vs.getD i ⟨0, 0, 0⟩).z < 1 / 2 ∧
        (3 / 10 * maxExtent (boxSize vs)) ^ 2
          < distSq (vs.getD i ⟨0, 0, 0⟩) (findNoseTip vs (boxCenter vs) (boxSize vs))) ∧
    ∃ c0 ∈ initialControlPoints (findNoseTip vs (boxCenter vs) (boxSize vs)) (boxSize vs)
        (min (min (boxSize vs).x (boxSize vs).y) (boxSize vs).z * (4 / 100)),
      (∀ c ∈ initialControlPoints (findNoseTip vs (boxCenter vs) (boxSize vs)) (boxSize vs)
          (min (min (boxSize vs).x (boxSize vs).y) (boxSize vs).z * (4 / 100)),
        distSq (vs.getD i ⟨0, 0, 0⟩) c0.position ≤ distSq (vs.getD i ⟨0, 0, 0⟩) c.position) ∧
      distSq (vs.getD i ⟨0, 0, 0⟩) c0.position
        < (2 / 10 * maxExtent (boxSize vs)) ^ 2 := by
  simp only [createAnatomicalControlMesh] at hcp
  obtain ⟨cp0, hcp0, rfl⟩ := List.mem_map.mp hcp
  have hi' : i ∈ (List.range vs.length).filter fun j =>
      decide (assignVertex
        (initialControlPoints (findNoseTip vs (boxCenter vs) (boxSize vs)) (boxSize vs)
          (min (min (boxSize vs).x (boxSize vs).y) (boxSize vs).z * (4 / 100)))
        (boxCenter vs) (boxSize vs) (findNoseTip vs (boxCenter vs) (boxSize vs))
        (vs.getD j ⟨0, 0, 0⟩) = some cp0.region) := hi
  obtain ⟨hrange, hdec⟩ := List.mem_filter.mp hi'
  have hassign := of_decide_eq_true hdec
  have hinv := assignVertex_some_inv _ _ _ _ _ _ hassign
  exact ⟨List.mem_range.mp hrange, hinv.1, hinv.2⟩

/-- C5 counterexample: on the fixture mesh, vertex 3 ends up owned by
the bridge control point (the bridge window override reassigns it away
from its nearest handle, the tip), yet its squared distance to the
bridge control point is `410`, not below the squared threshold
`(0.2 · 100)^2 = 400` — refuting the claim that every kept vertex is
within the threshold of its *assigned* control point. -/
theorem C5_counterexample :
    ∃ cp ∈ (createAnatomicalControlMesh meshFixture).2,
      ∃ i ∈ cp.vertexIndices,
        ¬(distSq (meshFixture.getD i ⟨0, 0, 0⟩) cp.position
            < (2 / 10 * maxExtent (boxSize meshFixture)) ^ 2) := by
  refine ⟨⟨⟨50, 73, 83⟩, .bridge, 16, [2, 3]⟩, ?_, 3, ?_, ?_⟩
  · rw [meshFixture_result]
    exact List.mem_cons_self _ _
  · simp
  · rw [meshFixture_box.2]
    norm_num [meshFixture, distSq, Vec3.sub, Vec3.normSq, maxExtent]

lemma meshDegenerate_radii :
    ((createAnatomicalControlMesh meshDegenerate).2.map ControlPoint.influenceRadius)
      = [0, 0, 0, 0, 0, 0, 0] := by
  norm_num [meshDegenerate, createAnatomicalControlMesh, boxCenter, boxSize, boxMin, boxMax,
    findNoseTip, tipFold, tipStep, strictTipWindow, relaxedTipWindow, normCoord,
    initialControlPoints, createControlPoint, influenceRadiusFor, Vec3.add, Vec3.sub, Vec3.smul]

/-- C5 witness: the amended theorem applied to the fixture mesh, vertex
3 of the bridge control point. -/
theorem C5_kept_vertices_near_nearest_witness :
    3 < meshFixture.length ∧
    ∃ c0 ∈ initialControlPoints
        (findNoseTip meshFixture (boxCenter meshFixture) (boxSize meshFixture))
        (boxSize meshFixture)
        (min (min (boxSize meshFixture).x (boxSize meshFixture).y) (boxSize meshFixture).z
          * (4 / 100)),
      distSq (meshFixture.getD 3 ⟨0, 0, 0⟩) c0.position
        < (2 / 10 * maxExtent (boxSize meshFixture)) ^ 2 := by
  have h := C5_kept_vertices_near_nearest meshFixture ⟨⟨50, 73, 83⟩, .bridge, 16, [2, 3]⟩
    (by rw [meshFixture_result]; exact List.mem_cons_self _ _) 3 (by simp)
  obtain ⟨c0, hc0, _, hlt⟩ := h.2.2
  exact ⟨h.1, c0, hc0, hlt⟩

/-- C9 (amended): on a mesh whose bounding box has strictly positive
extent on every axis, the classification pass produces exactly one
control point per region, in the fixed creation order (so the
Region→ControlPoint relation is one-to-one), and every influence radius
is strictly positive.  (The claim as frozen asserts this for *every*
loaded mesh; a degenerate bounding box makes every radius zero, see
`C9_counterexample`.) -/
theorem C9_one_cp_per_region_radius_positive {K : Type} [LinearOrderedField K]
    (vs : List (Vec3 K))
    (hx : 0 < (boxSize vs).x) (hy : 0 < (boxSize vs).y) (hz : 0 < (boxSize vs).z) :
    ((createAnatomicalControlMesh vs).2.map ControlPoint.region)
      = [.bridge, .tip, .leftNostril, .rightNostril,
         .leftSidewall, .rightSidewall, .columella] ∧
    ∀ cp ∈ (createAnatomicalControlMesh vs).2, 0 < cp.influenceRadius := by
  have h1 : 0 < min (min (boxSize vs).x (boxSize vs).y) (boxSize vs).z :=
    lt_min (lt_min hx hy) hz
  have hcp : 0 < min (min (boxSize vs).x (boxSize vs).y) (boxSize vs).z * (4 / 100) := by
    positivity
  constructor
  · simp [createAnatomicalControlMesh, initialControlPoints, createControlPoint]
  · intro cp hcpm
    simp only [createAnatomicalControlMesh] at hcpm
    obtain ⟨cp0, hcp0, rfl⟩ := List.mem_map.mp hcpm
    show 0 < cp0.influenceRadius
    simp only [initialControlPoints, createControlPoint, List.mem_cons,
      List.not_mem_nil, or_false] at hcp0
    rcases hcp0 with h | h | h | h | h | h | h <;> subst h <;>
      simp only [influenceRadiusFor] <;> exact mul_pos hcp (by norm_num)

/-- C9 counterexample: on the degenerate single-vertex mesh the
bounding box has zero extent, so every control point of the
classification pass has influence radius `0`, refuting the unrestricted
positivity claim. -/
theorem C9_counterexample :
    ∃ cp ∈ (createAnatomicalControlMesh meshDegenerate).2, ¬(0 < cp.influenceRadius) := by
  have h := meshDegenerate_radii
  cases hl : (createAnatomicalControlMesh meshDegenerate).2 with
  | nil => rw [hl] at h; simp at h
  | cons a t =>
    rw [hl] at h
    have ha : a.influenceRadius = 0 := by
      have h2 := congrArg (fun l => l.headD (1 : ℚ)) h
      simpa using h2
    refine ⟨a, ?_, ?_⟩
    · exact List.mem_cons_self a t
    · rw [ha]
      norm_num

/-- C9 witness: the amended theorem applied to the fixture mesh, whose
bounding box is the cube of side 100. -/
theorem C9_one_cp_per_region_radius_positive_witness :
    ((createAnatomicalControlMesh meshFixture).2.map ControlPoint.region)
      = [.bridge, .tip, .leftNostril, .rightNostril,
         .leftSidewall, .rightSidewall, .columella] :=
  (C9_one_cp_per_region_radius_positive meshFixture
    (by rw [meshFixture_box.2]; norm_num) (by rw [meshFixture_box.2]; norm_num)
    (by rw [meshFixture_box.2]; norm_num)).1

lemma closest_go_congr (pt : Vec3 K) (ps qs : List (Vec3 K)) (nv : List Nat)
    (h : ∀ j ∈ nv, ps.getD j ⟨0, 0, 0⟩ = qs.getD j ⟨0, 0, 0⟩) :
    ∀ acc, nv.foldl (closestStep pt ps) acc = nv.foldl (closestStep pt qs) acc := by
  induction nv with
  | nil => intro acc; rfl
  | cons j js ih =>
    intro acc
    rw [List.foldl_cons, List.foldl_cons]
    have hstep : closestStep pt ps acc j = closestStep pt qs acc j := by
      unfold closestStep
      rw [h j (List.mem_cons_self j js)]
    rw [hstep]
    exact ih (fun k hk => h k (List.mem_cons_of_mem j hk)) _

/-- C6: the pointer-down pick of `VertexInteraction.handleMouseDown`
resolves handle proxies (vertex markers) first — on any marker hit the
mesh-surface intersection is never consulted; only with no marker hit
and a mesh-surface intersection does it scan the classified nose
vertices only (its result depends on no other vertex position), and
the minimum-distance classified vertex is selected if and only if its
(squared) distance to the intersection point beats the fixed selection
tolerance `0.2`; in every other case the pick resolves to no
selection. -/
theorem C6_picking_precedence {K : Type} [LinearOrderedField K] :
    (∀ (i : Nat) (t : List Nat) (mh : Option (Vec3 K)) (nv : List Nat) (ps : List (Vec3 K)),
      pickVertexTarget (i :: t) mh nv ps = some i) ∧
    (∀ (nv : List Nat) (ps : List (Vec3 K)),
      pickVertexTarget [] none nv ps = none) ∧
    (∀ (pt : Vec3 K) (nv : List Nat) (ps qs : List (Vec3 K)),
      (∀ j ∈ nv, ps.getD j ⟨0, 0, 0⟩ = qs.getD j ⟨0, 0, 0⟩) →
      pickVertexTarget [] (some pt) nv ps = pickVertexTarget [] (some pt) nv qs) ∧
    (∀ (pt : Vec3 K) (ps : List (Vec3 K)),
      pickVertexTarget [] (some pt) [] ps = none) ∧
    (∀ (pt : Vec3 K) (nv : List Nat) (ps : List (Vec3 K)), nv ≠ [] →
      ∃ j ∈ nv,
        (∀ k ∈ nv, distSq (ps.getD j ⟨0, 0, 0⟩) pt ≤ distSq (ps.getD k ⟨0, 0, 0⟩) pt) ∧
        pickVertexTarget [] (some pt) nv ps =
          if distSq (ps.getD j ⟨0, 0, 0⟩) pt < (2 / 10 : K) ^ 2 then some j else none) := by
  refine ⟨fun i t mh nv ps => rfl, fun nv ps => rfl, ?_, fun pt ps => rfl, ?_⟩
  · intro pt nv ps qs h
    have hc : closestVertex nv ps pt = closestVertex nv qs pt :=
      closest_go_congr pt ps qs nv h none
    simp only [pickVertexTarget, hc]
  · intro pt nv ps hne
    cases hcv : closestVertex nv ps pt with
    | none => exact absurd ((closestVertex_eq_none_iff pt ps nv).mp hcv) hne
    | some pr =>
      obtain ⟨hmem, heq, hmin⟩ := closestVertex_spec pt ps nv pr hcv
      refine ⟨pr.1, hmem, ?_, ?_⟩
      · intro k hk
        rw [← heq]
        exact hmin k hk
      · simp only [pickVertexTarget, hcv, heq]

/-- C6 witness: the theorem at `ℚ`; a marker hit wins over a present
mesh hit, and the mesh phase selects the single classified vertex when
it is within tolerance of the intersection point. -/
theorem C6_picking_precedence_witness :
    pickVertexTarget (3 :: [7]) (some (⟨0, 0, 0⟩ : Vec3 ℚ)) [0] [⟨1, 0, 0⟩] = some 3 ∧
    ∃ j ∈ [0],
      (∀ k ∈ [0], distSq (([⟨(1 : ℚ), 0, 0⟩] : List (Vec3 ℚ)).getD j ⟨0, 0, 0⟩) ⟨0, 0, 0⟩
        ≤ distSq (([⟨(1 : ℚ), 0, 0⟩] : List (Vec3 ℚ)).getD k ⟨0, 0, 0⟩) ⟨0, 0, 0⟩) ∧
      pickVertexTarget [] (some (⟨0, 0, 0⟩ : Vec3 ℚ)) [0] [⟨1, 0, 0⟩] =
        if distSq (([⟨(1 : ℚ), 0, 0⟩] : List (Vec3 ℚ)).getD j ⟨0, 0, 0⟩) ⟨0, 0, 0⟩
            < (2 / 10 : ℚ) ^ 2 then some j else none :=
  ⟨C6_picking_precedence.1 3 [7] (some ⟨0, 0, 0⟩) [0] [⟨1, 0, 0⟩],
    C6_picking_precedence.2.2.2.2 ⟨0, 0, 0⟩ [0] [⟨1, 0, 0⟩] (by simp)⟩

/-- C7 (amended): on every pointer release the dragging flag is
cleared; `useVertexInteraction.handleMouseUp` also resets the selected
vertex to none, but `AnatomicalMeshEditor.handleMouseUp` leaves the
selected control point untouched — only dragging stops.  A pointer-down
whose pick fails produces no state transition in either module. -/
theorem C7_release_semantics :
    (∀ s : VertexInteractionState, (vertexMouseUp s).selectedVertex = none ∧
      (vertexMouseUp s).isDragging = false) ∧
    (∀ s : AnatInteraction, (anatMouseUp s).isDragging = false ∧
      (anatMouseUp s).selectedControlPoint = s.selectedControlPoint) ∧
    (∀ s : AnatInteraction, anatMouseDown none s = s) ∧
    (∀ s : VertexInteractionState, vertexMouseDown none s = s) :=
  ⟨fun _ => ⟨rfl, rfl⟩, fun _ => ⟨rfl, rfl⟩, fun _ => rfl, fun _ => rfl⟩

/-- C7 counterexample: after a pointer release in the anatomical
editor, a previously selected control point is still the selected
target — `handleMouseUp` only clears `isDragging` — refuting the claim
that *every* pointer release resets the selection to none. -/
theorem C7_counterexample :
    (anatMouseUp { selectedControlPoint := some NoseRegion.tip, isDragging := true
      }).selectedControlPoint ≠ none := by
  simp [anatMouseUp]

/-- C1: after any finite sequence of deformation steps (handle drags
through `updateInfluencedVertices`, or the three slider adjustments),
one `resetNose` call restores every vertex position exactly to the
load-time snapshot (the snapshot is never mutated by any step), rebuilds
the normals from the restored geometry, and re-runs
`createAnatomicalControlMesh` on the restored geometry. -/
theorem C1_reset_exact (normalsOf : List (Vec3 ℝ) → List (Vec3 ℝ)) (s0 s : EditorState)
    (hload : s0.positions = s0.snapshot)
    (hsteps : Relation.ReflTransGen (EditStep normalsOf) s0 s) :
    (resetNose normalsOf s).positions = s0.positions ∧
    (resetNose normalsOf s).positions = s0.snapshot ∧
    (resetNose normalsOf s).normals = normalsOf s0.snapshot ∧
    (resetNose normalsOf s).controlPoints = (createAnatomicalControlMesh s0.snapshot).2 := by
  have hsnap : s.snapshot = s0.snapshot := by
    induction hsteps with
    | refl => rfl
    | tail hab hbc ih => cases hbc <;> exact ih
  refine ⟨?_, ?_, ?_, ?_⟩
  · show s.snapshot = s0.positions
    rw [hsnap, hload]
  · exact hsnap
  · show normalsOf s.snapshot = normalsOf s0.snapshot
    rw [hsnap]
  · show (createAnatomicalControlMesh s.snapshot).2 = (createAnatomicalControlMesh s0.snapshot).2
    rw [hsnap]

/-- C1 witness: the theorem applied to a one-vertex session with the
empty step sequence. -/
theorem C1_reset_exact_witness :
    (resetNose id ⟨[⟨1, 2, 3⟩], [], [⟨1, 2, 3⟩], []⟩).positions = [(⟨1, 2, 3⟩ : Vec3 ℝ)] :=
  (C1_reset_exact id ⟨[⟨1, 2, 3⟩], [], [⟨1, 2, 3⟩], []⟩ ⟨[⟨1, 2, 3⟩], [], [⟨1, 2, 3⟩], []⟩
    rfl Relation.ReflTransGen.refl).2.1

lemma crossFactor_far (m : ℝ) (cp o : ControlPoint ℝ) (p : Vec3 ℝ)
    (h : 1 < dist3 o.position cp.position / (m * (3 / 10))) :
    crossFactor m cp o p = 0 := by
  simp only [crossFactor]
  rw [if_pos h]

lemma crossFactor_near (m : ℝ) (cp o : ControlPoint ℝ) (p : Vec3 ℝ)
    (h : ¬1 < dist3 o.position cp.position / (m * (3 / 10))) :
    crossFactor m cp o p
      = max 0 (1 - (dist3 o.position cp.position / (m * (3 / 10))) ^ 2)
        * max 0 (1 - dist3 p o.position / o.influenceRadius) * (7 / 10) := by
  simp only [crossFactor]
  rw [if_neg h]

/-- C8 (amended): in a deformation step, a vertex owned by a control
point `o` other than the dragged one is displaced by exactly
`moveVector * crossFactor`, where the cross factor is `0` when the
normalized inter-handle distance exceeds `1` and otherwise equals
`max(0, 1 - nd^2) * max(0, 1 - d/o.influenceRadius) * 0.7`; the fixed
cross weight `0.7` is less than `1`, so such a vertex moves at most
`0.7 * |moveVector|` — strictly below the owning region's maximal
displacement `|moveVector|`.  (The claim as frozen adds that
neighboring-region vertices *always* move less than owning-region
vertices; a distant owned vertex can move less than a nearby
neighboring one, see `C8_counterexample`.) -/
theorem C8_cross_region_softening (cps : List (ControlPoint ℝ)) (cp o : ControlPoint ℝ)
    (mv : Vec3 ℝ) (ps : List (Vec3 ℝ))
    (hpair : OwnersDisjoint cps)
    (ho : o ∈ cps) (hne : o ≠ cp)
    (i : Nat) (hi : i < ps.length) (hio : i ∈ o.vertexIndices)
    (hicp : i ∉ cp.vertexIndices)
    (hRo : 0 < o.influenceRadius) :
    (updateInfluencedVertices cps cp mv ps).getD i ⟨0, 0, 0⟩
      = (ps.getD i ⟨0, 0, 0⟩).add
          (Vec3.smul (crossFactor (maxExtent (boxSize ps)) cp o (ps.getD i ⟨0, 0, 0⟩)) mv) ∧
    (1 < dist3 o.position cp.position / (maxExtent (boxSize ps) * (3 / 10)) →
      crossFactor (maxExtent (boxSize ps)) cp o (ps.getD i ⟨0, 0, 0⟩) = 0) ∧
    (¬1 < dist3 o.position cp.position / (maxExtent (boxSize ps) * (3 / 10)) →
      crossFactor (maxExtent (boxSize ps)) cp o (ps.getD i ⟨0, 0, 0⟩)
        = max 0 (1 - (dist3 o.position cp.position
              / (maxExtent (boxSize ps) * (3 / 10))) ^ 2)
          * max 0 (1 - dist3 (ps.getD i ⟨0, 0, 0⟩) o.position / o.influenceRadius)
          * (7 / 10)) ∧
    ((7 : ℝ) / 10 < 1) ∧
    dist3 ((updateInfluencedVertices cps cp mv ps).getD i ⟨0, 0, 0⟩) (ps.getD i ⟨0, 0, 0⟩)
      ≤ 7 / 10 * norm3 mv := by
  have hqs : (applyDirect cp mv ps).getD i ⟨0, 0, 0⟩ = ps.getD i ⟨0, 0, 0⟩ := by
    rw [applyDirect_getD cp mv ps i hi, if_neg hicp]
  have hi2 : i < (applyDirect cp mv ps).length := by
    rw [applyDirect_length]; exact hi
  have homem : o ∈ cps.filter fun x => @decide (¬x = cp) (Classical.propDecidable _) := by
    refine List.mem_filter.mpr ⟨ho, ?_⟩
    simp only [decide_eq_true_eq]
    exact hne
  have hpair2 : List.Pairwise
      (fun a b => ∀ j, j ∈ a.vertexIndices → j ∉ b.vertexIndices)
      (cps.filter fun x => @decide (¬x = cp) (Classical.propDecidable _)) :=
    List.Pairwise.sublist (List.filter_sublist cps) hpair
  have hmain : (updateInfluencedVertices cps cp mv ps).getD i ⟨0, 0, 0⟩
      = (ps.getD i ⟨0, 0, 0⟩).add
          (Vec3.smul (crossFactor (maxExtent (boxSize ps)) cp o (ps.getD i ⟨0, 0, 0⟩)) mv) := by
    show (applyCross (maxExtent (boxSize ps)) cp
        (cps.filter fun x => @decide (¬x = cp) (Classical.propDecidable _)) mv
        (applyDirect cp mv ps)).getD i ⟨0, 0, 0⟩ = _
    rw [applyCross_getD_owner (maxExtent (boxSize ps)) cp mv _ hpair2 o homem
      (applyDirect cp mv ps) i hi2 hio, hqs]
  refine ⟨hmain, fun h => crossFactor_far _ _ _ _ h, fun h => crossFactor_near _ _ _ _ h,
    by norm_num, ?_⟩
  rw [hmain, dist3_add_smul,
    abs_of_nonneg (crossFactor_nonneg (maxExtent (boxSize ps)) cp o (ps.getD i ⟨0, 0, 0⟩))]
  exact mul_le_mul_of_nonneg_right
    (crossFactor_le (maxExtent (boxSize ps)) cp o (ps.getD i ⟨0, 0, 0⟩) hRo)
    (norm3_nonneg mv)

/-- C8 counterexample: dragging the tip handle of a two-vertex scene,
the vertex owned by the dragged region sits beyond its influence radius
and does not move at all, while the vertex of the neighboring bridge
region sits exactly at its own handle and moves by `77/360 · |mv|` — a
neighboring-region vertex moving strictly more than an owning-region
vertex, refuting the claim's universal comparison. -/
theorem C8_counterexample :
    dist3 ((updateInfluencedVertices
        [⟨⟨0, 0, 0⟩, .tip, 1, [0]⟩, ⟨⟨1, 0, 0⟩, .bridge, 1, [1]⟩]
        ⟨⟨0, 0, 0⟩, .tip, 1, [0]⟩ ⟨0, 0, 1⟩
        [⟨5, 0, 0⟩, ⟨1, 0, 0⟩]).getD 0 ⟨0, 0, 0⟩) (⟨5, 0, 0⟩ : Vec3 ℝ)
      < dist3 ((updateInfluencedVertices
        [⟨⟨0, 0, 0⟩, .tip, 1, [0]⟩, ⟨⟨1, 0, 0⟩, .bridge, 1, [1]⟩]
        ⟨⟨0, 0, 0⟩, .tip, 1, [0]⟩ ⟨0, 0, 1⟩
        [⟨5, 0, 0⟩, ⟨1, 0, 0⟩]).getD 1 ⟨0, 0, 0⟩) (⟨1, 0, 0⟩ : Vec3 ℝ) := by
  set cpX : ControlPoint ℝ := ⟨⟨0, 0, 0⟩, .tip, 1, [0]⟩ with hcpX
  set oX : ControlPoint ℝ := ⟨⟨1, 0, 0⟩, .bridge, 1, [1]⟩ with hoX
  set psX : List (Vec3 ℝ) := [⟨5, 0, 0⟩, ⟨1, 0, 0⟩] with hpsX
  set mvX : Vec3 ℝ := ⟨0, 0, 1⟩ with hmvX
  have hd5 : dist3 ⟨5, 0, 0⟩ ⟨0, 0, 0⟩ = 5 := by
    simp only [dist3, norm3, Vec3.sub, Vec3.normSq]
    exact sqrt_eq_of_sq _ 5 (by norm_num) (by norm_num)
  have hd1 : dist3 ⟨1, 0, 0⟩ ⟨0, 0, 0⟩ = 1 := by
    simp only [dist3, norm3, Vec3.sub, Vec3.normSq]
    exact sqrt_eq_of_sq _ 1 (by norm_num) (by norm_num)
  have hnm : norm3 mvX = 1 := by
    simp only [hmvX, norm3, Vec3.normSq]
    exact sqrt_eq_of_sq _ 1 (by norm_num) (by norm_num)
  have hm : maxExtent (boxSize psX) = 4 := by
    simp only [hpsX, boxSize, boxMin, boxMax, maxExtent, Vec3.sub, List.foldl]
    norm_num
  have hne : oX ≠ cpX := by
    simp [hcpX, hoX]
  have hfil : (([cpX, oX] : List (ControlPoint ℝ)).filter
      fun x => @decide (¬x = cpX) (Classical.propDecidable _)) = [oX] := by
    simp [List.filter, hne]
  have hdf : directFactor cpX ⟨5, 0, 0⟩ = 0 := by
    simp only [directFactor, hcpX, hd5]
    norm_num
  have hcf : crossFactor 4 cpX oX ⟨1, 0, 0⟩ = 77 / 360 := by
    simp only [crossFactor, hcpX, hoX, hd1, dist3_self]
    rw [if_neg (by norm_num)]
    norm_num
  have hlen : psX.length = 2 := by simp [hpsX]
  have hqs0 : (applyDirect cpX mvX psX).getD 0 ⟨0, 0, 0⟩ = ⟨5, 0, 0⟩ := by
    rw [applyDirect_getD cpX mvX psX 0 (by rw [hlen]; norm_num)]
    rw [if_pos (by simp [hcpX])]
    rw [show psX.getD 0 ⟨0, 0, 0⟩ = ⟨5, 0, 0⟩ from rfl, hdf, Vec3.smul_zero3, Vec3.add_zero3]
  have hqs1 : (applyDirect cpX mvX psX).getD 1 ⟨0, 0, 0⟩ = ⟨1, 0, 0⟩ := by
    rw [applyDirect_getD cpX mvX psX 1 (by rw [hlen]; norm_num)]
    rw [if_neg (by simp [hcpX])]
    rfl
  have hi2 : ∀ j, j < 2 → j < (applyDirect cpX mvX psX).length := by
    intro j hj
    rw [applyDirect_length, hlen]
    exact hj
  have hout : updateInfluencedVertices [cpX, oX] cpX mvX psX
      = applyCross 4 cpX [oX] mvX (applyDirect cpX mvX psX) := by
    show applyCross (maxExtent (boxSize psX)) cpX
        (([cpX, oX] : List (ControlPoint ℝ)).filter
          fun x => @decide (¬x = cpX) (Classical.propDecidable _)) mvX
        (applyDirect cpX mvX psX) = _
    rw [hfil, hm]
  have h0 : (updateInfluencedVertices [cpX, oX] cpX mvX psX).getD 0 ⟨0, 0, 0⟩
      = ⟨5, 0, 0⟩ := by
    rw [hout, applyCross_getD_untouched 4 cpX [oX] mvX (applyDirect cpX mvX psX) 0
      (hi2 0 (by norm_num)) (by simp [hoX]), hqs0]
  have h1 : (updateInfluencedVertices [cpX, oX] cpX mvX psX).getD 1 ⟨0, 0, 0⟩
      = (⟨1, 0, 0⟩ : Vec3 ℝ).add (Vec3.smul (77 / 360) mvX) := by
    rw [hout, applyCross_getD_owner 4 cpX mvX [oX] (by simp) oX (by simp)
      (applyDirect cpX mvX psX) 1 (hi2 1 (by norm_num)) (by simp [hoX]), hqs1, hcf]
  rw [h0, h1, dist3_self, dist3_add_smul, hnm]
  norm_num

/-- C8 witness: the amended theorem at the two-region scene of the
counterexample, for the bridge-owned vertex. -/
theorem C8_cross_region_softening_witness :
    ((7 : ℝ) / 10 < 1) ∧
    dist3 ((updateInfluencedVertices
        [⟨⟨0, 0, 0⟩, .tip, 1, [0]⟩, ⟨⟨1, 0, 0⟩, .bridge, 1, [1]⟩]
        ⟨⟨0, 0, 0⟩, .tip, 1, [0]⟩ ⟨0, 0, 1⟩
        [⟨5, 0, 0⟩, ⟨1, 0, 0⟩]).getD 1 ⟨0, 0, 0⟩)
        (([⟨5, 0, 0⟩, ⟨1, 0, 0⟩] : List (Vec3 ℝ)).getD 1 ⟨0, 0, 0⟩)
      ≤ 7 / 10 * norm3 ⟨0, 0, 1⟩ := by
  have hpairX : OwnersDisjoint
      [⟨⟨0, 0, 0⟩, .tip, 1, [0]⟩, ⟨⟨1, 0, 0⟩, .bridge, 1, [1]⟩] := by
    refine List.Pairwise.cons ?_ ?_
    · intro b hb i hi
      rw [List.mem_singleton] at hb
      subst hb
      simp at hi ⊢
      omega
    · exact List.pairwise_singleton _ _
  have h := C8_cross_region_softening
    [⟨⟨0, 0, 0⟩, .tip, 1, [0]⟩, ⟨⟨1, 0, 0⟩, .bridge, 1, [1]⟩]
    ⟨⟨0, 0, 0⟩, .tip, 1, [0]⟩ ⟨⟨1, 0, 0⟩, .bridge, 1, [1]⟩ ⟨0, 0, 1⟩
    [⟨5, 0, 0⟩, ⟨1, 0, 0⟩]
    hpairX (by simp) (by simp) 1 (by norm_num) (by simp) (by simp) (by norm_num)
  exact ⟨h.2.2.2.1, h.2.2.2.2⟩

/-- C2 witness: the bound theorem at a one-control-point scene with a
raw move vector of length 5 and bounding-sphere radius 10; the clamped
vector has length at most 1. -/
theorem C2_single_step_displacement_bound_witness :
    norm3 (clampMove 10 (Vec3.sub (⟨3, 4, 0⟩ : Vec3 ℝ) ⟨0, 0, 0⟩)) ≤ 10 * (1 / 10) :=
  (C2_single_step_displacement_bound 10 [⟨⟨0, 0, 0⟩, .tip, 1, [0]⟩]
    ⟨⟨0, 0, 0⟩, .tip, 1, [0]⟩ ⟨3, 4, 0⟩ [⟨0, 0, 0⟩]
    (by norm_num)
    (List.pairwise_singleton _ _)
    (by
      intro o ho hneo
      rw [List.mem_singleton] at ho
      exact absurd ho hneo)
    (by
      intro o ho
      rw [List.mem_singleton] at ho
      subst ho
      norm_num)).1

/-- C3 witness: the falloff theorem on two owned vertices at distances
1 and 5 from the control point with influence radius 2; the farther
vertex (beyond the radius) is displaced no more than the closer one and
in fact stays exactly in place. -/
theorem C3_direct_falloff_monotone_witness :
    dist3 ((applyDirect ⟨⟨0, 0, 0⟩, .tip, 2, [0, 1]⟩ ⟨0, 0, 1⟩
        [⟨0, 0, 1⟩, ⟨0, 3, 4⟩]).getD 1 ⟨0, 0, 0⟩)
        (([⟨0, 0, 1⟩, ⟨0, 3, 4⟩] : List (Vec3 ℝ)).getD 1 ⟨0, 0, 0⟩)
      ≤ dist3 ((applyDirect ⟨⟨0, 0, 0⟩, .tip, 2, [0, 1]⟩ ⟨0, 0, 1⟩
        [⟨0, 0, 1⟩, ⟨0, 3, 4⟩]).getD 0 ⟨0, 0, 0⟩)
        (([⟨0, 0, 1⟩, ⟨0, 3, 4⟩] : List (Vec3 ℝ)).getD 0 ⟨0, 0, 0⟩) ∧
    (applyDirect ⟨⟨0, 0, 0⟩, .tip, 2, [0, 1]⟩ ⟨0, 0, 1⟩
        [⟨0, 0, 1⟩, ⟨0, 3, 4⟩]).getD 1 ⟨0, 0, 0⟩
      = ([⟨0, 0, 1⟩, ⟨0, 3, 4⟩] : List (Vec3 ℝ)).getD 1 ⟨0, 0, 0⟩ := by
  have hda : dist3 ⟨0, 0, 1⟩ ⟨0, 0, 0⟩ = 1 := by
    simp only [dist3, norm3, Vec3.sub, Vec3.normSq]
    exact sqrt_eq_of_sq _ 1 (by norm_num) (by norm_num)
  have hdb : dist3 ⟨0, 3, 4⟩ ⟨0, 0, 0⟩ = 5 := by
    simp only [dist3, norm3, Vec3.sub, Vec3.normSq]
    exact sqrt_eq_of_sq _ 5 (by norm_num) (by norm_num)
  have h := C3_direct_falloff_monotone ⟨⟨0, 0, 0⟩, .tip, 2, [0, 1]⟩ ⟨0, 0, 1⟩
    [⟨0, 0, 1⟩, ⟨0, 3, 4⟩] (by norm_num) 0 1 (by norm_num) (by norm_num)
    (by simp) (by simp)
    (by
      show dist3 ⟨0, 0, 1⟩ ⟨0, 0, 0⟩ < dist3 ⟨0, 3, 4⟩ ⟨0, 0, 0⟩
      rw [hda, hdb]
      norm_num)
  refine ⟨h.1, h.2.2 1 (by norm_num) (by simp) ?_⟩
  show (2 : ℝ) ≤ dist3 ⟨0, 3, 4⟩ ⟨0, 0, 0⟩
  rw [hdb]
  norm_num

/-- C10 witness: the drag step with raw pointer displacement of length
5 against a bounding-sphere radius 10 (clamp bound 1): the handle lands
on the full target. -/
theorem C10_handle_outruns_vertices_witness :
    (handleMouseMove 10 [⟨⟨0, 0, 0⟩, .tip, 1, [0]⟩] ⟨⟨0, 0, 0⟩, .tip, 1, [0]⟩
      ⟨3, 4, 0⟩ [⟨0, 0, 0⟩]).1.position = ⟨3, 4, 0⟩ := by
  have hd : dist3 ⟨3, 4, 0⟩ ⟨0, 0, 0⟩ = 5 := by
    simp only [dist3, norm3, Vec3.sub, Vec3.normSq]
    exact sqrt_eq_of_sq _ 5 (by norm_num) (by norm_num)
  exact (C10_handle_outruns_vertices 10 [⟨⟨0, 0, 0⟩, .tip, 1, [0]⟩]
    ⟨⟨0, 0, 0⟩, .tip, 1, [0]⟩ ⟨3, 4, 0⟩ [⟨0, 0, 0⟩]
    (by norm_num)
    (by
      show (10 : ℝ) * (1 / 10) < dist3 ⟨3, 4, 0⟩ ⟨0, 0, 0⟩
      rw [hd]
      norm_num)
    (List.pairwise_singleton _ _)
    (by
      intro o ho hneo
      rw [List.mem_singleton] at ho
      exact absurd ho hneo)
    (by
      intro o ho
      rw [List.mem_singleton] at ho
      subst ho
      norm_num)).1

end Rhinovate
